import Mathlib

/-!
# Morphlex morph engine — shallow embedding and verification

This file embeds the core of `src/morphlex.ts` (the DOM morphing engine) in
Lean 4 and proves or refutes the specification claims about it.

Modelling conventions:

* A DOM node is a `DNode`.  Every node carries a `ref : Nat`, standing for the
  JavaScript object identity of the node (`===`); all node references in one
  scenario are assumed distinct, mirroring object identity in the host.
* Element attributes are an ordered association list, as in the DOM's
  `NamedNodeMap` (well-formed inputs have no duplicate names).
* Form controls carry `Live` state: the live `value` / `checked` / `selected`
  properties together with the DOM "dirty" flags.  As in the DOM, a live
  property tracks its content attribute until the property has been assigned
  (the dirty flag is set), after which it is independent.
* Mutation is modelled by explicit state passing: functions return the updated
  node (or child list) together with a log of host operations and observer
  callbacks (`Ev`).  `before*` callbacks are total boolean functions in
  `Options`; an absent callback is the constantly-true default, matching
  `?? true` in the source.  `after*` callbacks are observationally just their
  invocations, so they are recorded in the log.
-/

namespace Morphlex

/-- Live form-control state: the live properties and their DOM dirty flags.
When a dirty flag is false the corresponding live property still tracks the
content attribute, exactly as in the DOM. -/
structure Live where
  value : String := ""
  checked : Bool := false
  selected : Bool := false
  valueDirty : Bool := false
  checkedDirty : Bool := false
  selectedDirty : Bool := false
deriving Repr, DecidableEq

/-- A DOM node: an element (node type 1) with local name, ordered attributes,
live form state and children; a text node (node type 3); or another
character-data node (`other ntype content`, e.g. a comment, node type 8).
`ref` models JavaScript object identity. -/
inductive DNode where
  | elem (ref : Nat) (localName : String) (attrs : List (String × String))
         (live : Live) (children : List DNode)
  | text (ref : Nat) (content : String)
  | other (ref : Nat) (ntype : Nat) (content : String)

namespace DNode

/-- The node's identity tag (JavaScript object identity). -/
def nref : DNode → Nat
  | elem r _ _ _ _ => r
  | text r _ => r
  | other r _ _ => r

/-- `node.nodeType`. -/
def nodeType : DNode → Nat
  | elem _ _ _ _ _ => 1
  | text _ _ => 3
  | other _ t _ => t

/-- `node.nodeValue`: `null` for elements, the character data otherwise. -/
def nodeValue : DNode → Option String
  | elem _ _ _ _ _ => none
  | text _ s => some s
  | other _ _ s => some s

/-- Overwrite the character data of a non-element node
(`from.nodeValue = to.nodeValue`). -/
def withValue : DNode → String → DNode
  | elem r n a l c, _ => elem r n a l c
  | text r _, s => text r s
  | other r t _, s => other r t s

/-- `element.localName` (empty for non-elements). -/
def localName : DNode → String
  | elem _ n _ _ _ => n
  | _ => ""

/-- The element's attribute list (empty for non-elements). -/
def attrs : DNode → List (String × String)
  | elem _ _ a _ _ => a
  | _ => []

/-- The element's live form state. -/
def live : DNode → Live
  | elem _ _ _ l _ => l
  | _ => {}

/-- The node's children (empty for non-elements). -/
def children : DNode → List DNode
  | elem _ _ _ _ c => c
  | _ => []

/-- Replace an element's children. -/
def withChildren : DNode → List DNode → DNode
  | elem r n a l _, c => elem r n a l c
  | n, _ => n

/-- Replace an element's live state. -/
def withLive : DNode → Live → DNode
  | elem r n a _ c, l => elem r n a l c
  | n, _ => n

/-- Replace an element's attribute list. -/
def withAttrs : DNode → List (String × String) → DNode
  | elem r n _ l c, a => elem r n a l c
  | n, _ => n

end DNode

/-- `getAttribute`: the first binding for `name`, or `none` (DOM `null`). -/
def getAttr (n : DNode) (name : String) : Option String :=
  (n.attrs.find? (fun p => p.1 == name)).map Prod.snd

/-- `hasAttribute`. -/
def hasAttr (n : DNode) (name : String) : Bool :=
  (getAttr n name).isSome

/-- `setAttribute`: update the existing binding in place, or append a new one,
as the DOM does. -/
def setAttrList (a : List (String × String)) (name value : String) : List (String × String) :=
  if a.any (fun p => p.1 == name) then
    a.map (fun p => if p.1 == name then (name, value) else p)
  else a ++ [(name, value)]

/-- `setAttribute` on a node. -/
def setAttrN (n : DNode) (name value : String) : DNode :=
  n.withAttrs (setAttrList n.attrs name value)

/-- `removeAttribute`. -/
def removeAttrN (n : DNode) (name : String) : DNode :=
  n.withAttrs (n.attrs.filter (fun p => p.1 != name))

/-- `element.id`: the `id` attribute, defaulting to the empty string. -/
def idOf (n : DNode) : String := (getAttr n "id").getD ""

/-- `isInputElement` (src/morphlex.ts line 720). -/
def isInputElement (n : DNode) : Bool := n.localName == "input"

/-- `isOptionElement` (src/morphlex.ts line 724). -/
def isOptionElement (n : DNode) : Bool := n.localName == "option"

/-- `isParentNode` (src/morphlex.ts line 728): node types 1, 9 and 11 are
parent nodes; in this model only elements are parents. -/
def isParentNode (n : DNode) : Bool := n.nodeType == 1

mutual
/-- `node.textContent` for elements: concatenated text data of all descendant
text nodes, in tree order. -/
def textContent : DNode → String
  | .elem _ _ _ _ c => textContentList c
  | .text _ s => s
  | .other _ _ s => s

/-- `textContent` over a child list. -/
def textContentList : List DNode → String
  | [] => ""
  | n :: rest => textContent n ++ textContentList rest
end

/-- `input.value`: the live value if the dirty-value flag is set, otherwise the
`value` content attribute (defaulting to `""`), per the DOM value sanitization
model. -/
def inputValue (n : DNode) : String :=
  if n.live.valueDirty then n.live.value else (getAttr n "value").getD ""

/-- `input.defaultValue`: the `value` content attribute. -/
def inputDefaultValue (n : DNode) : String := (getAttr n "value").getD ""

/-- `input.checked`: the live checkedness if dirty, otherwise the presence of
the `checked` attribute. -/
def inputChecked (n : DNode) : Bool :=
  if n.live.checkedDirty then n.live.checked else hasAttr n "checked"

/-- `input.defaultChecked`: presence of the `checked` attribute. -/
def inputDefaultChecked (n : DNode) : Bool := hasAttr n "checked"

/-- `option.selected`: the live selectedness if dirty, otherwise the presence
of the `selected` attribute. -/
def optionSelected (n : DNode) : Bool :=
  if n.live.selectedDirty then n.live.selected else hasAttr n "selected"

/-- `option.defaultSelected`: presence of the `selected` attribute. -/
def optionDefaultSelected (n : DNode) : Bool := hasAttr n "selected"

/-- `option.value`: the `value` attribute if present, otherwise the option's
text content. -/
def optionValue (n : DNode) : String := (getAttr n "value").getD (textContent n)

/-- `input.name`: the `name` attribute, defaulting to `""`. -/
def nameOf (n : DNode) : String := (getAttr n "name").getD ""

/-- `textarea.value`: live value if dirty, otherwise the default value. -/
def textareaValue (n : DNode) : String :=
  if n.live.valueDirty then n.live.value else textContent n

/-- `textarea.defaultValue`: the element's text content. -/
def textareaDefaultValue (n : DNode) : String := textContent n

/-- `input.value = v`: sets the live value and the dirty-value flag. -/
def setLiveValue (n : DNode) (v : String) : DNode :=
  n.withLive { n.live with value := v, valueDirty := true }

/-- `input.checked = b`: sets the live checkedness and its dirty flag. -/
def setLiveChecked (n : DNode) (b : Bool) : DNode :=
  n.withLive { n.live with checked := b, checkedDirty := true }

/-- `option.selected = b`: sets the live selectedness and its dirty flag. -/
def setLiveSelected (n : DNode) (b : Bool) : DNode :=
  n.withLive { n.live with selected := b, selectedDirty := true }

/-- Attribute-map equality as `isEqualNode` compares it: same number of
attributes and every attribute of `x` present with the same value in `y`
(order-insensitive; coincides with DOM semantics on duplicate-free maps). -/
def eqAttrs (x y : List (String × String)) : Bool :=
  x.length == y.length &&
    x.all (fun p => (y.find? (fun q => q.1 == p.1)).map Prod.snd == some p.2)

mutual
/-- `a.isEqualNode(b)`: structural equality ignoring identity and live state —
same node type, same local name, equal attribute maps, and pairwise equal
children; character data nodes compare their data. -/
def eqNode : DNode → DNode → Bool
  | .elem _ n1 a1 _ c1, .elem _ n2 a2 _ c2 =>
      n1 == n2 && eqAttrs a1 a2 && eqNodeList c1 c2
  | .text _ s, .text _ t => s == t
  | .other _ t1 s, .other _ t2 u => t1 == t2 && s == u
  | _, _ => false

/-- Pairwise `isEqualNode` on child lists. -/
def eqNodeList : List DNode → List DNode → Bool
  | [], [] => true
  | x :: xs, y :: ys => eqNode x y && eqNodeList xs ys
  | _, _ => false
end

/-! ## Dirty-flag pre-pass (`flagDirtyInputs`, src/morphlex.ts lines 171-189) -/

/-- The condition under which `flagDirtyInputs` flags an `input`:
`(input.name && input.value !== input.defaultValue) || input.checked !== input.defaultChecked`. -/
def inputDirtyPred (n : DNode) : Bool :=
  isInputElement n &&
    ((nameOf n != "" && inputValue n != inputDefaultValue n) ||
      inputChecked n != inputDefaultChecked n)

/-- The condition under which `flagDirtyInputs` flags an `option`:
`element.value && element.selected !== element.defaultSelected`. -/
def optionDirtyPred (n : DNode) : Bool :=
  isOptionElement n &&
    (optionValue n != "" && optionSelected n != optionDefaultSelected n)

/-- The condition under which `flagDirtyInputs` flags a `textarea`:
`element.value !== element.defaultValue`. -/
def textareaDirtyPred (n : DNode) : Bool :=
  n.localName == "textarea" && textareaValue n != textareaDefaultValue n

mutual
/-- Set `morphlex-dirty` on every node of the subtree (root included)
satisfying `p`; models one `querySelectorAll` loop of `flagDirtyInputs`
applied below a given root. -/
def flagAll (p : DNode → Bool) : DNode → DNode
  | .elem r n a l c =>
      let self : DNode := .elem r n a l (flagAllList p c)
      if p (.elem r n a l c) then setAttrN self "morphlex-dirty" "" else self
  | n => n

/-- `flagAll` over a child list. -/
def flagAllList (p : DNode → Bool) : List DNode → List DNode
  | [] => []
  | n :: rest => flagAll p n :: flagAllList p rest
end

/-- One `querySelectorAll` loop of `flagDirtyInputs`: flags the matching
proper descendants of `root` (the root itself is not in its own
`querySelectorAll` results). -/
def flagWhere (p : DNode → Bool) (root : DNode) : DNode :=
  root.withChildren (flagAllList p root.children)

/-- `flagDirtyInputs` (src/morphlex.ts lines 171-189): flag dirty inputs,
then options, then textareas, among the proper descendants of `node`. -/
def flagDirtyInputs (node : DNode) : DNode :=
  flagWhere textareaDirtyPred (flagWhere optionDirtyPred (flagWhere inputDirtyPred node))

/-! ## Host operations and observer events -/

/-- Observable events of one morph call: host structural operations (`move`,
`insert`, `remove`) and observer-callback invocations.  `move` is a
repositioning of an existing child (`moveBefore` / the `insertBefore` it falls
back to); `insert` is the insertion performed by `#replaceNode` or by the
reorder walk for an unmatched reference child. -/
inductive Ev where
  | move (ref : Nat)
  | insert (ref : Nat)
  | remove (ref : Nat)
  | afterNodeAdded (ref : Nat)
  | afterNodeRemoved (ref : Nat)
  | afterNodeVisited (fromRef toRef : Nat)
  | beforeAttributeUpdated (ref : Nat) (name : String) (newValue : Option String)
  | afterAttributeUpdated (ref : Nat) (name : String) (previousValue : Option String)
  | afterChildrenVisited (ref : Nat)
deriving Repr, DecidableEq

/-- The `Options` configuration: `preserveChanges` plus the veto callbacks.
The callbacks are total boolean functions; an absent callback is the
constantly-true default (`?? true` in the source).  The `after*` callbacks
return nothing, so they are modelled by `Ev` log entries rather than fields. -/
structure Options where
  preserveChanges : Bool := false
  beforeNodeVisited : DNode → DNode → Bool := fun _ _ => true
  beforeNodeAdded : Nat → DNode → Option Nat → Bool := fun _ _ _ => true
  beforeNodeRemoved : DNode → Bool := fun _ => true
  beforeAttributeUpdated : DNode → String → Option String → Bool := fun _ _ _ => true
  beforeChildrenVisited : DNode → Bool := fun _ => true

/-- All-defaults options: no callbacks supplied, `preserveChanges` off. -/
def noCallbacks : Options := {}

/-! ## Attribute morpher (`Morph.#visitAttributes`, src/morphlex.ts lines 362-432) -/

/-- The `value` case of the forward-pass live updates
(src/morphlex.ts lines 371-377). -/
def forwardValueUpdate (opts : Options) (a : DNode) (name value : String) : DNode :=
  if name == "value" then
    if isInputElement a && inputValue a != value then
      if !opts.preserveChanges || inputValue a == inputDefaultValue a then
        setLiveValue a value
      else a
    else a
  else a

/-- The `selected` case of the forward-pass live updates
(src/morphlex.ts lines 379-385). -/
def forwardSelectedUpdate (opts : Options) (a : DNode) (name : String) : DNode :=
  if name == "selected" then
    if isOptionElement a && !optionSelected a then
      if !opts.preserveChanges || optionSelected a == optionDefaultSelected a then
        setLiveSelected a true
      else a
    else a
  else a

/-- The `checked` case of the forward-pass live updates
(src/morphlex.ts lines 387-393). -/
def forwardCheckedUpdate (opts : Options) (a : DNode) (name : String) : DNode :=
  if name == "checked" then
    if isInputElement a && !inputChecked a then
      if !opts.preserveChanges || inputChecked a == inputDefaultChecked a then
        setLiveChecked a true
      else a
    else a
  else a

/-- The form-state live-property updates of one forward-pass iteration
(src/morphlex.ts lines 371-393), for reference attribute `(name, value)`. -/
def forwardLiveUpdates (opts : Options) (a0 : DNode) (name value : String) : DNode :=
  forwardCheckedUpdate opts (forwardSelectedUpdate opts (forwardValueUpdate opts a0 name value) name) name

/-- One iteration of the forward (add/update) attribute pass, for the
reference attribute `(name, value)`: the form-state live-property updates for
`value` / `selected` / `checked`, then the general hook-gated `setAttribute`. -/
def visitAttrForwardStep (opts : Options) (st : DNode × List Ev) (p : String × String) :
    DNode × List Ev :=
  let a := forwardLiveUpdates opts st.1 p.1 p.2
  let oldValue := getAttr a p.1
  if oldValue != some p.2 then
    let log := st.2 ++ [Ev.beforeAttributeUpdated a.nref p.1 (some p.2)]
    if opts.beforeAttributeUpdated a p.1 (some p.2) then
      (setAttrN a p.1 p.2, log ++ [Ev.afterAttributeUpdated a.nref p.1 oldValue])
    else (a, log)
  else (a, st.2)

/-- The `selected` case of the backward-pass live resets
(src/morphlex.ts lines 410-416). -/
def backwardSelectedReset (opts : Options) (a : DNode) (name : String) : DNode :=
  if name == "selected" then
    if isOptionElement a && optionSelected a then
      if !opts.preserveChanges || optionSelected a == optionDefaultSelected a then
        setLiveSelected a false
      else a
    else a
  else a

/-- The `checked` case of the backward-pass live resets
(src/morphlex.ts lines 418-424). -/
def backwardCheckedReset (opts : Options) (a : DNode) (name : String) : DNode :=
  if name == "checked" then
    if isInputElement a && inputChecked a then
      if !opts.preserveChanges || inputChecked a == inputDefaultChecked a then
        setLiveChecked a false
      else a
    else a
  else a

/-- The form-state live-property resets of one backward-pass iteration
(src/morphlex.ts lines 410-424), for current attribute `name` absent from the
reference. -/
def backwardLiveUpdates (opts : Options) (a0 : DNode) (name : String) : DNode :=
  backwardCheckedReset opts (backwardSelectedReset opts a0 name) name

def visitAttrBackwardStep (opts : Options) (toN : DNode) (st : DNode × List Ev)
    (p : String × String) : DNode × List Ev :=
  if !hasAttr toN p.1 then
    let a := backwardLiveUpdates opts st.1 p.1
    let log := st.2 ++ [Ev.beforeAttributeUpdated a.nref p.1 none]
    if opts.beforeAttributeUpdated a p.1 none then
      (removeAttrN a p.1, log ++ [Ev.afterAttributeUpdated a.nref p.1 (some p.2)])
    else (a, log)
  else st

/-- `Morph.#visitAttributes`: remove a stale `morphlex-dirty` marker (hooks not
consulted), run the forward pass over the reference's attributes in order, then
the backward pass over the current element's remaining attributes from last to
first. -/
def visitAttributes (opts : Options) (a b : DNode) : DNode × List Ev :=
  let a := if hasAttr a "morphlex-dirty" then removeAttrN a "morphlex-dirty" else a
  let st := b.attrs.foldl (visitAttrForwardStep opts) (a, [])
  st.1.attrs.reverse.foldl (visitAttrBackwardStep opts b) st

/-- `Morph.#visitTextArea` (src/morphlex.ts lines 434-446).  Setting
`textContent` replaces the children with a single fresh text node (none when
empty); the fresh node's host identity is not tracked (`ref 0`). -/
def visitTextArea (opts : Options) (a b : DNode) : DNode :=
  let newTextContent := textContent b
  let isModified := textareaValue a != textareaDefaultValue a
  let a :=
    if textContent a != newTextContent then
      a.withChildren (if newTextContent == "" then [] else [DNode.text 0 newTextContent])
    else a
  if opts.preserveChanges && isModified then a
  else setLiveValue a (textareaDefaultValue a)

/-! ## Child-list primitives -/

/-- Whether the list contains a node with the given identity
(`node.parentNode === parent` from the child's point of view). -/
def containsRef (cs : List DNode) (r : Nat) : Bool :=
  cs.any (fun n => n.nref == r)

/-- `node.nextSibling` for the node with identity `r`: the identity of the
following child, `none` when `r` is last or absent. -/
def nextSiblingRef : List DNode → Nat → Option Nat
  | [], _ => none
  | x :: rest, r =>
      if x.nref == r then rest.head?.map DNode.nref else nextSiblingRef rest r

/-- Detach the (first) node with identity `r` from the child list. -/
def eraseRef : List DNode → Nat → List DNode
  | [], _ => []
  | x :: rest, r => if x.nref == r then rest else x :: eraseRef rest r

/-- `parent.insertBefore(n, anchor)`: insert `n` immediately before the child
with identity `ip`, or append when `ip` is `none` (a `null` anchor). -/
def insertBeforeRef (cs : List DNode) (n : DNode) (ip : Option Nat) : List DNode :=
  match ip with
  | none => cs ++ [n]
  | some r => insertBeforeRefAt cs n r
where
  /-- Insert before the first child with identity `r` (append if absent; the
  DOM would throw there, and the engine never reaches that case). -/
  insertBeforeRefAt : List DNode → DNode → Nat → List DNode
  | [], n, _ => [n]
  | x :: rest, n, r => if x.nref == r then n :: x :: rest else x :: insertBeforeRefAt rest n r

/-- The module-level `moveBefore` helper (src/morphlex.ts lines 203-214): a
no-op when the node is the insertion point, or is already a child of the
parent sitting immediately before the insertion point; otherwise one host
repositioning operation (`moveBefore` when supported, else `insertBefore`). -/
def moveBefore (cs : List DNode) (node : DNode) (ip : Option Nat) : List DNode × List Ev :=
  if some node.nref == ip then (cs, [])
  else if containsRef cs node.nref && nextSiblingRef cs node.nref == ip then (cs, [])
  else (insertBeforeRef (eraseRef cs node.nref) node ip, [Ev.move node.nref])

/-- The outcome of morphing one node pair: the node occupying the original
position afterwards, tagged with whether a committed `#replaceNode` detached
the original node. -/
inductive MorphRes where
  | inPlace (n : DNode)
  | replaced (n : DNode)

/-- The node a `MorphRes` leaves at the position. -/
def MorphRes.node : MorphRes → DNode
  | inPlace n => n
  | replaced n => n

/-- `Morph.#replaceNode` (src/morphlex.ts lines 668-681): both
`beforeNodeRemoved` and `beforeNodeAdded` must approve before anything
happens; on approval the new node is inserted before the old one, the old one
is removed, and both `after` callbacks fire. -/
def replaceNodeRes (opts : Options) (parentRef : Nat) (node newNode : DNode) :
    MorphRes × List Ev :=
  if opts.beforeNodeRemoved node && opts.beforeNodeAdded parentRef newNode (some node.nref) then
    (MorphRes.replaced newNode,
      [Ev.insert newNode.nref, Ev.afterNodeAdded newNode.nref,
       Ev.remove node.nref, Ev.afterNodeRemoved node.nref])
  else (MorphRes.inPlace node, [])

/-- `Morph.#removeNode` (src/morphlex.ts lines 683-688) applied to a sibling
list: remove the node if `beforeNodeRemoved` approves. -/
def removeNodeOp (opts : Options) (st : List DNode × List Ev) (node : DNode) :
    List DNode × List Ev :=
  if opts.beforeNodeRemoved node then
    (eraseRef st.1 node.nref, st.2 ++ [Ev.remove node.nref, Ev.afterNodeRemoved node.nref])
  else st

/-- `Morph.#morphOtherNode` (src/morphlex.ts lines 354-360). -/
def morphOtherRes (opts : Options) (parentRef : Nat) (a b : DNode) : MorphRes × List Ev :=
  if a.nodeType == b.nodeType && a.nodeValue.isSome && b.nodeValue.isSome then
    (MorphRes.inPlace (a.withValue (b.nodeValue.getD "")), [])
  else replaceNodeRes opts parentRef a b

/-! ## ID indexing (`Morph.#mapIdSets`, src/morphlex.ts lines 698-717) -/

/-- The per-call ID index: node identity to the list of descendant IDs pushed
for it (the `WeakMap<Node, Array<string>>`). -/
abbrev IdMap := List (Nat × List String)

/-- `idMap.get(node)`. -/
def idMapGet (m : IdMap) (r : Nat) : Option (List String) :=
  (m.find? (fun p => p.1 == r)).map Prod.snd

/-- Push one ID for one node: append to the existing entry, or create a
singleton entry (`idSet.push(id)` / `idMap.set(el, [id])`). -/
def idMapPush (m : IdMap) (r : Nat) (id : String) : IdMap :=
  if m.any (fun p => p.1 == r) then
    m.map (fun p => if p.1 == r then (p.1, p.2 ++ [id]) else p)
  else m ++ [(r, [id])]

mutual
/-- Collect, in document order, every element of the subtree that carries a
non-empty `id` attribute, paired with its ancestor chain from the element
itself up to (and including) the indexing root; `ancestors` is the chain above
this node. -/
def collectIdChains : DNode → List Nat → List (String × List Nat)
  | DNode.elem r n a l c, ancestors =>
      let here :=
        match getAttr (DNode.elem r n a l c) "id" with
        | some i => if i == "" then [] else [(i, r :: ancestors)]
        | none => []
      here ++ collectIdChainsList c (r :: ancestors)
  | _, _ => []

/-- `collectIdChains` over a child list. -/
def collectIdChainsList : List DNode → List Nat → List (String × List Nat)
  | [], _ => []
  | n :: rest, anc => collectIdChains n anc ++ collectIdChainsList rest anc
end

/-- `Morph.#mapIdSets(node)`: for every descendant with a non-empty ID
(`querySelectorAll("[id]")` visits proper descendants only), push that ID onto
the ID set of each element on the chain from the descendant up to `node`
inclusive. -/
def mapIdSets (node : DNode) (m : IdMap) : IdMap :=
  (collectIdChainsList node.children [node.nref]).foldl
    (fun acc p => p.2.foldl (fun acc2 r => idMapPush acc2 r p.1) acc) m

/-! ## Longest increasing subsequence
(`Morph.#longestIncreasingSubsequence`, src/morphlex.ts lines 226-279) -/

/-- The binary-search loop of the LIS routine, made total with explicit fuel
(`right - left` shrinks every iteration, so `length + 1` fuel is exact):
finds the leftmost position in `smallestEnding` whose value is not less than
`val`. -/
def lowerBoundGo (sE : List Nat) (val : Nat) : Nat → Nat → Nat → Nat
  | 0, l, _ => l
  | fuel + 1, l, r =>
      if l < r then
        let mid := (l + r) / 2
        if sE.getD mid 0 < val then lowerBoundGo sE val fuel (mid + 1) r
        else lowerBoundGo sE val fuel l mid
      else l

/-- The binary search of the LIS routine over the whole `smallestEnding`. -/
def lowerBound (sE : List Nat) (val : Nat) : Nat :=
  lowerBoundGo sE val (sE.length + 1) 0 sE.length

/-- The evolving state of the LIS routine: `smallestEnding[i]` is the smallest
ending value of any increasing subsequence of length `i+1` seen so far,
`indices[i]` is where it occurs, and `prev` holds the predecessor links
(`none` models both `-1` and an unset cell, which stop reconstruction alike). -/
structure LisSt where
  smallestEnding : List Nat
  indices : List Nat
  prev : List (Option Nat)

/-- One iteration of the LIS main loop for `(i, sequence[i])`; `undefined`
entries (new nodes) are skipped. -/
def lisStep (st : LisSt) (p : Nat × Option Nat) : LisSt :=
  match p.2 with
  | none => st
  | some val =>
      let i := p.1
      let left := lowerBound st.smallestEnding val
      let prev := st.prev.set i (if 0 < left then some (st.indices.getD (left - 1) 0) else none)
      if left == st.smallestEnding.length then
        { smallestEnding := st.smallestEnding ++ [val], indices := st.indices ++ [i], prev }
      else
        { smallestEnding := st.smallestEnding.set left val,
          indices := st.indices.set left i, prev }

/-- Reconstruction walk along the `prev` links (`while (curr !== undefined &&
curr !== -1)`), building the LIS index list front to back; fuel bounds the
walk (`prev` links strictly decrease, so `length` fuel suffices). -/
def lisWalkPrev (prev : List (Option Nat)) : Nat → Nat → List Nat
  | 0, _ => []
  | fuel + 1, curr =>
      match prev.getD curr none with
      | some p => lisWalkPrev prev fuel p ++ [curr]
      | none => [curr]

/-- `Morph.#longestIncreasingSubsequence`: the positions in `sequence` that
form the increasing subsequence the patience pass reconstructs. -/
def longestIncreasingSubsequence (seq : List (Option Nat)) : List Nat :=
  if seq.length == 0 then []
  else
    let st := seq.enum.foldl lisStep
      { smallestEnding := [], indices := [], prev := List.replicate seq.length none }
    match st.indices.getLast? with
    | none => []
    | some last => lisWalkPrev st.prev seq.length last

/-- `shouldNotMove` (src/morphlex.ts lines 639-642): mark the current-child
indices reached through the LIS positions. -/
def buildShouldNotMove (n : Nat) (mseq : List (Option Nat)) (lisIndices : List Nat) :
    List Bool :=
  lisIndices.foldl (fun snm j => snm.set ((mseq.getD j none).getD 0) true)
    (List.replicate n false)

/-! ## Child matching passes (src/morphlex.ts lines 448-628) -/

/-- One matching pass: for each still-unmatched reference index `j` in order,
scan the remaining candidate pool in order and take the first candidate
satisfying the pass predicate, removing both from their pools.  Returns the
remaining unmatched indices, the remaining pool, and the updated mseq. -/
def runPass (pred : Nat → Nat → Bool) :
    List Nat → List Nat → List (Option Nat) → List Nat × List Nat × List (Option Nat)
  | [], pool, mseq => ([], pool, mseq)
  | j :: js, pool, mseq =>
      match pool.find? (fun i => pred j i) with
      | some i =>
          let r := runPass pred js (pool.erase i) (mseq.set j (some i))
          (r.1, r.2.1, r.2.2)
      | none =>
          let r := runPass pred js pool mseq
          (j :: r.1, r.2.1, r.2.2)

/-- Pass 2 predicate, exact id: both elements with equal local name and equal
non-empty ID (src/morphlex.ts line 520). -/
def exactIdPred (e c : DNode) : Bool :=
  idOf e != "" && e.localName == c.localName && idOf e == idOf c

/-- Pass 3 predicate, ID-set overlap: both nodes have an ID-set entry in the
index and the sets share a member (src/morphlex.ts lines 529-545). -/
def idSetOverlap (m : IdMap) (e c : DNode) : Bool :=
  match idMapGet m e.nref, idMapGet m c.nref with
  | some idSet, some candSet => idSet.any (fun s => candSet.any (fun t => t == s))
  | _, _ => false

/-- One stable-attribute comparison of the heuristic pass: the reference
carries a non-empty `name`/`href`/`src` equal to the candidate's. -/
def heurAttr (e c : DNode) (attr : String) : Bool :=
  match getAttr e attr with
  | some v => v != "" && getAttr c attr == some v
  | none => false

/-- Pass 4 predicate, stable-attribute heuristic (src/morphlex.ts
lines 549-572). -/
def heurPred (e c : DNode) : Bool :=
  e.localName == c.localName &&
    (heurAttr e c "name" || heurAttr e c "href" || heurAttr e c "src")

/-- `input.type`: the `type` attribute, defaulting to `"text"` (unknown values
also reflect as `"text"` in the DOM; not modelled). -/
def inputType (n : DNode) : String := (getAttr n "type").getD "text"

/-- Pass 5 predicate, tag name, treating inputs of different `type` as
different tags (src/morphlex.ts lines 574-594). -/
def tagPred (e c : DNode) : Bool :=
  e.localName == c.localName &&
    !(isInputElement c && isInputElement e && inputType c != inputType e)

/-- A whitespace-only text node (src/morphlex.ts line 470). -/
def isWhitespaceText (n : DNode) : Bool :=
  n.nodeType == 3 && (textContent n).trim == ""

/-- Classify the current children (src/morphlex.ts lines 464-475):
`(candidateElements, whitespaceNodes, candidateNodes)`, each in index order. -/
def classifyFrom (fromC : List DNode) : List Nat × List Nat × List Nat :=
  fromC.enum.foldl
    (fun acc p =>
      if p.2.nodeType == 1 then (acc.1 ++ [p.1], acc.2.1, acc.2.2)
      else if isWhitespaceText p.2 then (acc.1, acc.2.1 ++ [p.1], acc.2.2)
      else (acc.1, acc.2.1, acc.2.2 ++ [p.1]))
    ([], [], [])

/-- Classify the reference children (src/morphlex.ts lines 477-488):
`(unmatchedElements, unmatchedNodes)`; whitespace-only reference text nodes
join neither pool. -/
def classifyTo (toC : List DNode) : List Nat × List Nat :=
  toC.enum.foldl
    (fun acc p =>
      if p.2.nodeType == 1 then (acc.1 ++ [p.1], acc.2)
      else if isWhitespaceText p.2 then acc
      else (acc.1, acc.2 ++ [p.1]))
    ([], [])

/-! ## Reorder-and-commit walk (src/morphlex.ts lines 630-666) -/

/-- The walk state: the parent's evolving child list, the insertion point
(identity of the child the next node goes before, `none` = append), and the
event log. -/
structure WalkSt where
  children : List DNode
  ip : Option Nat
  log : List Ev

/-- Apply a pair-morph outcome at the position of the child with identity `r`,
returning the updated list together with the `match.nextSibling` insertion
point the walk reads afterwards: the following child for an in-place morph,
`none` when a committed replacement detached the original node. -/
def applyMorphAt : List DNode → Nat → MorphRes → List DNode × Option Nat
  | [], _, _ => ([], none)
  | x :: rest, r, res =>
      if x.nref == r then
        match res with
        | MorphRes.inPlace n => (n :: rest, rest.head?.map DNode.nref)
        | MorphRes.replaced n => (n :: rest, none)
      else
        let p := applyMorphAt rest r res
        (x :: p.1, p.2)

/-- The unmatched branch of the reorder walk (src/morphlex.ts lines 656-662):
on `beforeNodeAdded` approval, insert the reference node itself before the
insertion point and advance past it. -/
def insertStep (opts : Options) (parentRef : Nat) (node : DNode) (st : WalkSt) : WalkSt :=
  if opts.beforeNodeAdded parentRef node st.ip then
    let cs := insertBeforeRef st.children node st.ip
    { children := cs,
      ip := nextSiblingRef cs node.nref,
      log := st.log ++ [Ev.insert node.nref, Ev.afterNodeAdded node.nref] }
  else st

/-- The matched branch of the reorder walk (src/morphlex.ts lines 648-655):
move the matched current child before the insertion point unless it is an LIS
fixed point, morph the pair, and advance the insertion point to
`match.nextSibling`. -/
def matchedStep (morphChild : DNode → DNode → MorphRes × List Ev)
    (fromChildNodes : List DNode) (shouldNotMove : List Bool)
    (node : DNode) (matchInd : Nat) (st : WalkSt) : WalkSt :=
  let mtch := fromChildNodes.getD matchInd (DNode.text 0 "")
  let moved :=
    if shouldNotMove.getD matchInd false then (st.children, ([] : List Ev))
    else moveBefore st.children mtch st.ip
  let morphed := morphChild mtch node
  let applied := applyMorphAt moved.1 mtch.nref morphed.1
  { children := applied.1, ip := applied.2, log := st.log ++ moved.2 ++ morphed.2 }

/-- The reorder-and-commit walk over the reference children paired with their
mseq (src/morphlex.ts lines 644-663). -/
def reorderWalk (opts : Options) (parentRef : Nat)
    (morphChild : DNode → DNode → MorphRes × List Ev)
    (fromChildNodes : List DNode) (shouldNotMove : List Bool) :
    List (DNode × Option Nat) → WalkSt → WalkSt
  | [], st => st
  | (node, mi) :: rest, st =>
      match mi with
      | some matchInd =>
          reorderWalk opts parentRef morphChild fromChildNodes shouldNotMove rest
            (matchedStep morphChild fromChildNodes shouldNotMove node matchInd st)
      | none =>
          reorderWalk opts parentRef morphChild fromChildNodes shouldNotMove rest
            (insertStep opts parentRef node st)

/-- A default node used for (unreachable) out-of-range index accesses. -/
def dflt : DNode := DNode.text 0 ""

/-- The seven-pass child matcher of `Morph.visitChildNodes` (src/morphlex.ts
lines 461-628) as it appears in the source: element deep equality; the single
combined loop trying exact id then ID-set overlap per candidate; the
stable-attribute heuristic; tag name; non-element deep equality; and node
kind.  Returns the matched-index sequence together with the leftover pools
`(candidateNodes, whitespaceNodes, candidateElements)` that the caller
removes. -/
def matchChildren (idMap : IdMap) (fromC toC : List DNode) :
    List (Option Nat) × List Nat × List Nat × List Nat :=
  let cf := classifyFrom fromC
  let ct := classifyTo toC
  let m0 : List (Option Nat) := List.replicate toC.length none
  let p1 := runPass (fun j i => eqNode (fromC.getD i dflt) (toC.getD j dflt)) ct.1 cf.1 m0
  let p2 := runPass
    (fun j i =>
      exactIdPred (toC.getD j dflt) (fromC.getD i dflt) ||
        idSetOverlap idMap (toC.getD j dflt) (fromC.getD i dflt))
    p1.1 p1.2.1 p1.2.2
  let p3 := runPass (fun j i => heurPred (toC.getD j dflt) (fromC.getD i dflt)) p2.1 p2.2.1 p2.2.2
  let p4 := runPass (fun j i => tagPred (toC.getD j dflt) (fromC.getD i dflt)) p3.1 p3.2.1 p3.2.2
  let p5 := runPass (fun j i => eqNode (fromC.getD i dflt) (toC.getD j dflt)) ct.2 cf.2.2 p4.2.2
  let p6 := runPass (fun j i => (toC.getD j dflt).nodeType == (fromC.getD i dflt).nodeType)
    p5.1 p5.2.1 p5.2.2
  (p6.2.2, p6.2.1, cf.2.1, p4.2.1)

/-- `Morph.visitChildNodes` (src/morphlex.ts lines 448-666), with the
recursive pair morph abstracted as `morphChild`: the `beforeChildrenVisited`
gate, the child matcher, removal of unmatched candidates, the LIS, and the
reorder walk.  Returns the parent's new child list and the event log. -/
def visitChildNodesGo (opts : Options) (idMap : IdMap)
    (morphChild : DNode → DNode → MorphRes × List Ev)
    (fromN toN : DNode) : List DNode × List Ev :=
  if !opts.beforeChildrenVisited fromN then (fromN.children, [])
  else
    let parentRef := fromN.nref
    let fromC := fromN.children
    let toC := toN.children
    let mt := matchChildren idMap fromC toC
    let mseq := mt.1
    let st1 := mt.2.1.foldl (fun st i => removeNodeOp opts st (fromC.getD i dflt)) (fromC, [])
    let st2 := mt.2.2.1.foldl (fun st i => removeNodeOp opts st (fromC.getD i dflt)) st1
    let st3 := mt.2.2.2.foldl (fun st i => removeNodeOp opts st (fromC.getD i dflt)) st2
    let lisIndices := longestIncreasingSubsequence mseq
    let snm := buildShouldNotMove fromC.length mseq lisIndices
    let ws : WalkSt := { children := st3.1, ip := st3.1.head?.map DNode.nref, log := st3.2 }
    let final := reorderWalk opts parentRef morphChild fromC snm (toC.zip mseq) ws
    (final.children, final.log ++ [Ev.afterChildrenVisited parentRef])

/-! ## The pair morpher (`Morph.#morphOneToOne`, src/morphlex.ts lines 318-352) -/

/-- `Morph.#morphOneToOne` with explicit recursion fuel (each recursive level
descends one tree level; any fuel at least the tree height is exact; zero fuel
returns the node unchanged and is never reached with adequate fuel).
`parentRef` is the identity of the node's current parent, used by
`#replaceNode`'s `beforeNodeAdded` callback. -/
def morphNodeFuel : Nat → Options → IdMap → Nat → DNode → DNode → MorphRes × List Ev
  | 0, _, _, _, a, _ => (MorphRes.inPlace a, [])
  | fuel + 1, opts, im, parentRef, a, b =>
      if a.nref == b.nref then (MorphRes.inPlace a, [])
      else if eqNode a b then (MorphRes.inPlace a, [])
      else if !opts.beforeNodeVisited a b then (MorphRes.inPlace a, [])
      else
        let step :=
          if a.nodeType == 1 && b.nodeType == 1 then
            if a.localName == b.localName then
              let att :=
                if !a.attrs.isEmpty || !b.attrs.isEmpty then visitAttributes opts a b
                else (a, [])
              if a.localName == "textarea" && b.localName == "textarea" then
                (MorphRes.inPlace (visitTextArea opts att.1 b), att.2)
              else if !att.1.children.isEmpty || !b.children.isEmpty then
                let rec2 := visitChildNodesGo opts im
                  (fun x y => morphNodeFuel fuel opts im att.1.nref x y) att.1 b
                (MorphRes.inPlace (att.1.withChildren rec2.1), att.2 ++ rec2.2)
              else (MorphRes.inPlace att.1, att.2)
            else replaceNodeRes opts parentRef a b
          else morphOtherRes opts parentRef a b
        (step.1, step.2 ++ [Ev.afterNodeVisited a.nref b.nref])

/-! ## Entry points -/

/-- The `morph` entry point (src/morphlex.ts lines 129-135) for a single
reference node, composed with `Morph.morph` (lines 281-293): the dirty-flag
pre-pass runs only when `preserveChanges` is off; both sides are indexed into
one ID index when they are parent nodes; then the pair morph runs (when the
reference is not a parent node, `Morph.morph` does nothing). -/
def morphFn (fuel : Nat) (opts : Options) (parentRef : Nat) (fromN toN : DNode) :
    MorphRes × List Ev :=
  let fromN := if !opts.preserveChanges && isParentNode fromN then flagDirtyInputs fromN else fromN
  let im := if isParentNode fromN then mapIdSets fromN [] else []
  if isParentNode toN then
    morphNodeFuel fuel opts (mapIdSets toN im) parentRef fromN toN
  else (MorphRes.inPlace fromN, [])

/-- The dirty-flag pre-pass of the `morph` entry point in isolation
(src/morphlex.ts line 132): the state of the current tree before any
mutation. -/
def morphPrepass (opts : Options) (fromN : DNode) : DNode :=
  if !opts.preserveChanges && isParentNode fromN then flagDirtyInputs fromN else fromN

/-- The `morphInner` entry point (src/morphlex.ts lines 148-169) for a node
reference: requires two elements of equal local name (otherwise it throws,
modelled as `none`); flags dirty inputs; then calls `visitChildNodes` on a
fresh `Morph` instance, whose ID index is empty — `morphInner` never calls
`#mapIdSets`. -/
def morphInnerFn (fuel : Nat) (opts : Options) (fromN toN : DNode) :
    Option (DNode × List Ev) :=
  if fromN.nodeType == 1 && toN.nodeType == 1 && fromN.localName == toN.localName then
    let fromN := if isParentNode fromN then flagDirtyInputs fromN else fromN
    let r := visitChildNodesGo opts []
      (fun x y => morphNodeFuel fuel opts [] fromN.nref x y) fromN toN
    some (fromN.withChildren r.1, r.2)
  else none

/-! ## Specification-side notions used to state the claims -/

/-- Strictly increasing list of naturals. -/
def strictIncrB : List Nat → Bool
  | [] => true
  | [_] => true
  | a :: b :: rest => a < b && strictIncrB (b :: rest)

/-- The mathematical length of the longest strictly increasing subsequence of
the defined entries of a matched-index sequence (absent positions skipped) —
the quantity the specification's LIS guarantee refers to. -/
def specLisLength (seq : List (Option Nat)) : Nat :=
  (((seq.filterMap id).sublists.filter strictIncrB).map List.length).foldl max 0

/-- The number of matched reference positions in a matched-index sequence. -/
def matchedCount (seq : List (Option Nat)) : Nat :=
  (seq.filterMap id).length

/-- The number of host move operations in an event log. -/
def moveCount (log : List Ev) : Nat :=
  (log.filter (fun e => match e with | Ev.move _ => true | _ => false)).length

/-- Whether an event concerns the named attribute. -/
def evNamesAttr (s : String) : Ev → Bool
  | Ev.beforeAttributeUpdated _ n _ => n == s
  | Ev.afterAttributeUpdated _ n _ => n == s
  | _ => false

/-- Whether an event is an `afterAttributeUpdated` callback invocation. -/
def isAfterAttrEv : Ev → Bool
  | Ev.afterAttributeUpdated _ _ _ => true
  | _ => false

/-- Whether an event is an `afterAttributeUpdated` callback invocation for the
particular attribute named `s`. -/
def isAfterAttrEvAt (s : String) : Ev → Bool
  | Ev.afterAttributeUpdated _ n _ => n == s
  | _ => false

mutual
/-- All nodes of a subtree (the root first, then descendants, pre-order). -/
def subtreeNodes : DNode → List DNode
  | DNode.elem r n a l c => DNode.elem r n a l c :: subtreeNodesList c
  | n => [n]

/-- `subtreeNodes` over a child list. -/
def subtreeNodesList : List DNode → List DNode
  | [] => []
  | n :: rest => subtreeNodes n ++ subtreeNodesList rest
end

/-! ## Concrete scenarios

The concrete node trees used by the evaluation theorems, counterexamples and
witnesses below.  Node `ref`s are chosen pairwise distinct, as host object
identities are. -/

/-- C1 scenario, current tree: `<body><div><span id="x"/></div><q/></body>`. -/
def c1From : DNode :=
  DNode.elem 0 "body" [] {} [
    DNode.elem 1 "div" [] {} [DNode.elem 10 "span" [("id", "x")] {} []],
    DNode.elem 2 "q" [] {} []]

/-- C1 scenario, reference tree:
`<body><section><span id="x"/></section><p/><q/></body>`. -/
def c1To : DNode :=
  DNode.elem 5 "body" [] {} [
    DNode.elem 11 "section" [] {} [DNode.elem 20 "span" [("id", "x")] {} []],
    DNode.elem 12 "p" [] {} [],
    DNode.elem 13 "q" [] {} []]

/-- C3 scenario, current children: a `div` holding a `span#x`, then
`<p name="a"/>`, then `<p name="b"/>`. -/
def c3From : DNode :=
  DNode.elem 0 "div" [] {} [
    DNode.elem 1 "div" [] {} [DNode.elem 10 "span" [("id", "x")] {} []],
    DNode.elem 2 "p" [("name", "a")] {} [],
    DNode.elem 3 "p" [("name", "b")] {} []]

/-- C3 scenario, reference children: a `section` holding a `span#x` (ID-set
match with a different local name), then the two `p`s swapped. -/
def c3To : DNode :=
  DNode.elem 5 "div" [] {} [
    DNode.elem 11 "section" [] {} [DNode.elem 20 "span" [("id", "x")] {} []],
    DNode.elem 12 "p" [("name", "b")] {} [],
    DNode.elem 13 "p" [("name", "a")] {} []]

/-- The ID index the `morph` entry builds for the C3 scenario. -/
def c3Im : IdMap := mapIdSets c3To (mapIdSets c3From [])

/-- C5 scenario, current element: `<div><p/></div>`. -/
def c5From : DNode := DNode.elem 0 "div" [] {} [DNode.elem 1 "p" [] {} []]

/-- C5 scenario, reference element: `<div><p/><span/></div>`; the `span`
(ref 12) has no match and is inserted. -/
def c5To : DNode :=
  DNode.elem 5 "div" [] {} [DNode.elem 11 "p" [] {} [], DNode.elem 12 "span" [] {} []]

/-- C6 scenario: an `input` with a name whose live value (dirty) differs from
its default value. -/
def c6Input : DNode :=
  DNode.elem 1 "input" [("type", "text"), ("name", "q"), ("value", "a")]
    {value := "b", valueDirty := true} []

/-- C6 scenario: a form holding `c6Input`. -/
def c6Tree : DNode := DNode.elem 0 "form" [] {} [c6Input]

/-- C6 scenario: a named `option` with empty value whose live selectedness
(dirty) differs from its default. -/
def c6Option : DNode :=
  DNode.elem 2 "option" [("name", "o")] {selected := true, selectedDirty := true} []

/-- C6 scenario: a select holding `c6Option`. -/
def c6Tree2 : DNode := DNode.elem 0 "select" [] {} [c6Option]

/-- C7 scenario, current root: `<div><div/><div><span id="x"/></div></div>`;
the empty `div` (ref 2) precedes the container of `span#x` (ref 3). -/
def c7From : DNode :=
  DNode.elem 0 "div" [] {} [
    DNode.elem 2 "div" [] {} [],
    DNode.elem 3 "div" [] {} [DNode.elem 30 "span" [("id", "x")] {} []]]

/-- C7 scenario, reference root: `<div><div><span id="x" class="c"/></div></div>`. -/
def c7To : DNode :=
  DNode.elem 5 "div" [] {} [
    DNode.elem 6 "div" [] {} [DNode.elem 40 "span" [("id", "x"), ("class", "c")] {} []]]

/-- The ID index that indexing both C7 roots would produce. -/
def c7Im : IdMap := mapIdSets c7To (mapIdSets c7From [])

/-- C8 scenario, current parent: `<main><div id="b"><span id="a"/></div></main>`. -/
def c8FromP : DNode :=
  DNode.elem 0 "main" [] {} [
    DNode.elem 1 "div" [("id", "b")] {} [DNode.elem 10 "span" [("id", "a")] {} []]]

/-- The single current child of the C8 scenario. -/
def c8C0 : DNode := DNode.elem 1 "div" [("id", "b")] {} [DNode.elem 10 "span" [("id", "a")] {} []]

/-- C8 scenario, reference children: first a `div` holding `span#a` (ID-set
overlap with `c8C0`), then `<div id="b"/>` (exact-id match with `c8C0`). -/
def c8R0 : DNode := DNode.elem 11 "div" [] {} [DNode.elem 20 "span" [("id", "a")] {} []]

/-- The second reference child of the C8 scenario. -/
def c8R1 : DNode := DNode.elem 12 "div" [("id", "b")] {} []

/-- C8 scenario, reference parent. -/
def c8ToP : DNode := DNode.elem 5 "main" [] {} [c8R0, c8R1]

/-- The ID index the `morph` entry builds for the C8 scenario. -/
def c8Im : IdMap := mapIdSets c8ToP (mapIdSets c8FromP [])

/-- C2 scenario, current input: declared `value="a"`, live value `"c"`. -/
def c2From : DNode :=
  DNode.elem 1 "input" [("type", "text"), ("value", "a")] {value := "c", valueDirty := true} []

/-- C2 scenario, reference input: declared `value="b"`. -/
def c2To : DNode := DNode.elem 2 "input" [("type", "text"), ("value", "b")] {} []

/-- Options whose every veto callback refuses. -/
def refuseAll : Options :=
  { beforeNodeVisited := fun _ _ => false
    beforeNodeAdded := fun _ _ _ => false
    beforeNodeRemoved := fun _ => false
    beforeAttributeUpdated := fun _ _ _ => false
    beforeChildrenVisited := fun _ => false }

/-- Options that refuse only attribute updates. -/
def refuseAttrs : Options := { beforeAttributeUpdated := fun _ _ _ => false }

/-- Options whose `beforeAttributeUpdated` refuses updates to the `class`
attribute only, approving every other attribute and every other hook. -/
def refuseClassAttr : Options :=
  { beforeAttributeUpdated := fun _ n _ => !(n == "class") }

/-- Options whose `beforeNodeAdded` refuses while every other hook approves. -/
def refuseAddOnly : Options := { beforeNodeAdded := fun _ _ _ => false }

/-- The components of an input's live value state tracked through the
attribute passes: equal live value, equal dirty-value flag, equal `value`
attribute and equal local name. -/
def valInv (x y : DNode) : Prop :=
  x.live.value = y.live.value ∧ x.live.valueDirty = y.live.valueDirty ∧
    getAttr x "value" = getAttr y "value" ∧ x.localName = y.localName

/-! # Theorems -/

/-- C9: whenever the internal `moveBefore` helper is invoked with a node that
is already in position — the node is the insertion point itself, or it is a
child of the parent whose next sibling is the insertion point — no host
`insertBefore`/`moveBefore` operation is performed and the child list is left
unchanged. -/
theorem moveBefore_noop_when_in_place (cs : List DNode) (node : DNode) (ip : Option Nat)
    (h : some node.nref = ip ∨
      (containsRef cs node.nref = true ∧ nextSiblingRef cs node.nref = ip)) :
    moveBefore cs node ip = (cs, []) := by
  by_cases hc : (some node.nref == ip) = true
  · simp [moveBefore, hc]
  · rcases h with h | ⟨h1, h2⟩
    · exact absurd (by simp [h]) hc
    · simp [moveBefore, hc, h1, h2]

/-- Witness for C9 at a concrete child list: moving `text 1` before `text 2`
when it already sits there changes nothing. -/
theorem moveBefore_noop_when_in_place_witness :
    moveBefore [DNode.text 1 "a", DNode.text 2 "b"] (DNode.text 1 "a") (some 2) =
      ([DNode.text 1 "a", DNode.text 2 "b"], []) :=
  moveBefore_noop_when_in_place _ _ _ (Or.inr ⟨rfl, rfl⟩)

/-- C1 (code bug): evaluating the full `morph` entry point, with no callback
options, on the C1 scenario.  The reference children are
`section, p, q`, but the morphed current element ends with children
`section, q, p`: the pair matched by ID-set overlap (`div` vs `section`) is
replaced inside the reorder walk, `insertionPoint = match.nextSibling` is then
read from the detached node and becomes null, and the unmatched `p` is
appended after the fixed-point `q` instead of before it — violating the
spec's count-and-order invariant at positions 1 and 2. -/
theorem morph_c1_order_divergence :
    ((morphFn 10 noCallbacks 99 c1From c1To).1.node.children.map DNode.localName)
        = ["section", "q", "p"] ∧
    (c1To.children.map DNode.localName) = ["section", "p", "q"] := by
  exact ⟨by decide, by decide⟩

/-- C3 (code bug): evaluating the engine on the C3 scenario.  The matcher
produces the matched-index sequence `[0, 2, 1]` (matched count 3, longest
strictly increasing subsequence of length 2), so the LIS guarantee promises
`3 − 2 = 1` move; but the full morph performs `0` host move operations (the
one `moveBefore` call no-ops against the stale null insertion point left by
the in-walk replacement) and the children end out of reference order. -/
theorem morph_c3_move_count_divergence :
    (matchChildren c3Im c3From.children c3To.children).1 = [some 0, some 2, some 1] ∧
    matchedCount [some 0, some 2, some 1] = 3 ∧
    specLisLength [some 0, some 2, some 1] = 2 ∧
    moveCount (morphFn 10 noCallbacks 99 c3From c3To).2 = 0 := by
  refine ⟨by decide, by decide, by decide, by decide⟩

/-- C5 counterexample: in the C5 scenario the reference child `span` (ref 12)
is unmatched and approved; the child the walk inserts into the current parent
is the reference node itself — the value at position 1 of the result equals
the reference child including its host identity, and the host insertion
event names that identity.  A deep copy would carry a fresh identity, so the
claim that a clone is inserted (and that reference nodes are not moved out of
the reference tree) is false on this input. -/
theorem visitChildNodes_inserts_reference_node_itself :
    (morphFn 10 noCallbacks 99 c5From c5To).1.node.children.getD 1 dflt
        = c5To.children.getD 1 dflt ∧
    ((morphFn 10 noCallbacks 99 c5From c5To).1.node.children.getD 1 dflt).nref = 12 ∧
    (c5To.children.getD 1 dflt).nref = 12 ∧
    Ev.insert 12 ∈ (morphFn 10 noCallbacks 99 c5From c5To).2 := by
  refine ⟨rfl, by decide, by decide, by decide⟩

/-- C6 counterexample: (a) with `preserveChanges = true` the `morph` entry
point runs no dirty-flag pre-pass at all, so the named, dirty input of
`c6Tree` does not carry `morphlex-dirty` although the claim requires it on
every call; (b) even with `preserveChanges` off, a named option with empty
`value` whose live selectedness differs from its default is not flagged (the
code tests `option.value`, not the name). -/
theorem morphPrepass_counterexample :
    (morphPrepass {preserveChanges := true} c6Tree = c6Tree ∧
      hasAttr ((morphPrepass {preserveChanges := true} c6Tree).children.getD 0 dflt)
        "morphlex-dirty" = false ∧
      nameOf c6Input ≠ "" ∧ inputValue c6Input ≠ inputDefaultValue c6Input) ∧
    (hasAttr ((morphPrepass {} c6Tree2).children.getD 0 dflt) "morphlex-dirty" = false ∧
      nameOf c6Option ≠ "" ∧ optionSelected c6Option ≠ optionDefaultSelected c6Option) := by
  exact ⟨⟨rfl, by decide, by decide, by decide⟩, ⟨by decide, by decide, by decide⟩⟩

/-- C7 counterexample: on the C7 scenario the matcher over the empty ID index
(what `morphInner` actually supplies — it never calls `#mapIdSets`) matches
the reference child to the first `div` (ref 2) by tag name, whereas the
matcher over the index obtained by indexing both roots would match it to the
`span#x` container (ref 3) by ID-set overlap; `morphInner` indeed keeps ref 2
and discards ref 3, so inner mode does not index the roots as claimed. -/
theorem morphInner_no_id_indexing_counterexample :
    (matchChildren ([] : IdMap) c7From.children c7To.children).1 = [some 0] ∧
    (matchChildren c7Im c7From.children c7To.children).1 = [some 1] ∧
    (morphInnerFn 10 noCallbacks c7From c7To).map (fun p => p.1.children.map DNode.nref)
        = some [2] ∧
    (visitChildNodesGo noCallbacks c7Im
        (fun a b => morphNodeFuel 10 noCallbacks c7Im c7From.nref a b)
        c7From c7To).1.map DNode.nref = [3] := by
  refine ⟨by decide, by decide, by decide, by decide⟩

/-! ## Helper lemmas: node setters -/

theorem attrs_withLive (n : DNode) (l : Live) : (n.withLive l).attrs = n.attrs := by
  cases n <;> rfl

theorem attrs_setLiveValue (n : DNode) (v : String) : (setLiveValue n v).attrs = n.attrs :=
  attrs_withLive n _

theorem attrs_setLiveChecked (n : DNode) (b : Bool) : (setLiveChecked n b).attrs = n.attrs :=
  attrs_withLive n _

theorem attrs_setLiveSelected (n : DNode) (b : Bool) : (setLiveSelected n b).attrs = n.attrs :=
  attrs_withLive n _

theorem localName_withLive (n : DNode) (l : Live) : (n.withLive l).localName = n.localName := by
  cases n <;> rfl

theorem localName_withAttrs (n : DNode) (a : List (String × String)) :
    (n.withAttrs a).localName = n.localName := by
  cases n <;> rfl

theorem live_withAttrs_elem (n : DNode) (a : List (String × String)) :
    (n.withAttrs a).live = n.live := by
  cases n <;> rfl

theorem localName_ne_empty_elem (n : DNode) (h : n.localName ≠ "") :
    ∃ r nm a l c, n = DNode.elem r nm a l c := by
  cases n with
  | elem r nm a l c => exact ⟨r, nm, a, l, c, rfl⟩
  | text r s => exact absurd rfl h
  | other r t s => exact absurd rfl h

theorem valueParts_setLiveChecked (n : DNode) (b : Bool) :
    (setLiveChecked n b).live.value = n.live.value ∧
      (setLiveChecked n b).live.valueDirty = n.live.valueDirty := by
  cases n <;> simp [setLiveChecked, DNode.withLive, DNode.live]

theorem valueParts_setLiveSelected (n : DNode) (b : Bool) :
    (setLiveSelected n b).live.value = n.live.value ∧
      (setLiveSelected n b).live.valueDirty = n.live.valueDirty := by
  cases n <;> simp [setLiveSelected, DNode.withLive, DNode.live]

theorem live_setAttrN (n : DNode) (name v : String) : (setAttrN n name v).live = n.live :=
  live_withAttrs_elem n _

theorem live_removeAttrN (n : DNode) (name : String) : (removeAttrN n name).live = n.live :=
  live_withAttrs_elem n _

theorem localName_setAttrN (n : DNode) (name v : String) :
    (setAttrN n name v).localName = n.localName :=
  localName_withAttrs n _

theorem localName_removeAttrN (n : DNode) (name : String) :
    (removeAttrN n name).localName = n.localName :=
  localName_withAttrs n _

/-! ## Helper lemmas: attribute lookups -/

theorem find?_cons_pos' {α : Type} (p : α → Bool) (a : α) (l : List α) (h : p a = true) :
    List.find? p (a :: l) = some a :=
  List.find?_cons_of_pos _ h

theorem find?_cons_neg' {α : Type} (p : α → Bool) (a : α) (l : List α) (h : p a = false) :
    List.find? p (a :: l) = List.find? p l :=
  List.find?_cons_of_neg _ (by simp [h])

theorem find?_overwrite_ne (name v k : String) (h : k ≠ name) :
    ∀ l : List (String × String),
      (l.map (fun p => if p.1 == name then (name, v) else p)).find? (fun p => p.1 == k) =
        l.find? (fun p => p.1 == k)
  | [] => rfl
  | p :: rest => by
      have hrest := find?_overwrite_ne name v k h rest
      by_cases hp : p.1 = name
      · have h1 : (p.1 == name) = true := beq_iff_eq.mpr hp
        have h2 : (p.1 == k) = false := by
          rw [hp]; exact beq_eq_false_iff_ne.mpr (fun hh => h hh.symm)
        have h3 : ((name, v).1 == k) = false := beq_eq_false_iff_ne.mpr (fun hh => h hh.symm)
        rw [List.map_cons, h1, if_pos rfl,
          find?_cons_neg' (fun p => p.1 == k) (name, v) _ h3,
          find?_cons_neg' (fun p => p.1 == k) p rest h2, hrest]
      · have h1 : (p.1 == name) = false := beq_eq_false_iff_ne.mpr hp
        rw [List.map_cons, h1]
        simp only [Bool.false_eq_true, if_false]
        by_cases hpk : (p.1 == k) = true
        · rw [find?_cons_pos' (fun p => p.1 == k) p _ hpk,
            find?_cons_pos' (fun p => p.1 == k) p rest hpk]
        · rw [find?_cons_neg' (fun p => p.1 == k) p _ (by simpa using hpk),
            find?_cons_neg' (fun p => p.1 == k) p rest (by simpa using hpk), hrest]

theorem find?_setAttrList_ne (l : List (String × String)) (name v k : String) (h : k ≠ name) :
    (setAttrList l name v).find? (fun p => p.1 == k) = l.find? (fun p => p.1 == k) := by
  unfold setAttrList
  split
  · exact find?_overwrite_ne name v k h l
  · rw [List.find?_append]
    have hnk : ((name, v).1 == k) = false := beq_eq_false_iff_ne.mpr (fun hh => h hh.symm)
    cases hfind : l.find? (fun p => p.1 == k) with
    | some q => simp [hfind]
    | none => simp [hfind, List.find?, hnk]

theorem getAttr_setAttrN_ne (n : DNode) (name v k : String) (h : k ≠ name) :
    getAttr (setAttrN n name v) k = getAttr n k := by
  cases n with
  | elem r nm a l c =>
      simp only [getAttr, setAttrN, DNode.withAttrs, DNode.attrs]
      rw [find?_setAttrList_ne a name v k h]
  | text r s => rfl
  | other r t s => rfl

theorem find?_overwrite_self (name v : String) :
    ∀ l : List (String × String), l.any (fun p => p.1 == name) = true →
      (l.map (fun p => if p.1 == name then (name, v) else p)).find? (fun p => p.1 == name) =
        some (name, v)
  | [], h => by simp at h
  | p :: rest, h => by
      by_cases hp : (p.1 == name) = true
      · rw [List.map_cons, hp, if_pos rfl,
          find?_cons_pos' (fun p => p.1 == name) (name, v) _ (beq_iff_eq.mpr rfl)]
      · have hrest : rest.any (fun p => p.1 == name) = true := by
          simp only [List.any_cons, hp, Bool.false_or] at h
          exact h
        have h1 : (p.1 == name) = false := by simpa using hp
        rw [List.map_cons, h1]
        simp only [Bool.false_eq_true, if_false]
        rw [find?_cons_neg' (fun p => p.1 == name) p _ h1]
        exact find?_overwrite_self name v rest hrest

theorem find?_setAttrList_self (l : List (String × String)) (name v : String) :
    (setAttrList l name v).find? (fun p => p.1 == name) = some (name, v) := by
  unfold setAttrList
  split
  · exact find?_overwrite_self name v l (by assumption)
  · rename_i hany
    rw [List.find?_append]
    have hnone : l.find? (fun p => p.1 == name) = none := by
      rw [List.find?_eq_none]
      intro p hp hpe
      have : l.any (fun p => p.1 == name) = true := List.any_of_mem hp hpe
      simp [this] at hany
    simp [hnone, List.find?]

theorem getAttr_setAttrN_self (n : DNode) (hn : n.localName ≠ "") (name v : String) :
    getAttr (setAttrN n name v) name = some v := by
  obtain ⟨r, nm, a, l, c, rfl⟩ := localName_ne_empty_elem n hn
  simp only [getAttr, setAttrN, DNode.withAttrs, DNode.attrs]
  rw [find?_setAttrList_self]
  rfl

theorem find?_removeAttr_ne (l : List (String × String)) (name k : String) (h : k ≠ name) :
    (l.filter (fun p => p.1 != name)).find? (fun p => p.1 == k) =
      l.find? (fun p => p.1 == k) := by
  induction l with
  | nil => rfl
  | cons p rest ih =>
      by_cases hp : p.1 = name
      · have h1 : (p.1 != name) = false := by simp [hp]
        have h2 : (p.1 == k) = false := by
          rw [hp]; exact beq_eq_false_iff_ne.mpr (fun hh => h hh.symm)
        rw [List.filter_cons, h1]
        simp only [Bool.false_eq_true, if_false]
        rw [find?_cons_neg' (fun p => p.1 == k) p rest h2, ih]
      · have h1 : (p.1 != name) = true := by simp [hp]
        rw [List.filter_cons, h1, if_pos rfl]
        by_cases hpk : (p.1 == k) = true
        · rw [find?_cons_pos' (fun p => p.1 == k) p _ hpk,
            find?_cons_pos' (fun p => p.1 == k) p rest hpk]
        · rw [find?_cons_neg' (fun p => p.1 == k) p _ (by simpa using hpk),
            find?_cons_neg' (fun p => p.1 == k) p rest (by simpa using hpk), ih]

theorem getAttr_removeAttrN_ne (n : DNode) (name k : String) (h : k ≠ name) :
    getAttr (removeAttrN n name) k = getAttr n k := by
  cases n with
  | elem r nm a l c =>
      simp only [getAttr, removeAttrN, DNode.withAttrs, DNode.attrs]
      rw [find?_removeAttr_ne a name k h]
  | text r s => rfl
  | other r t s => rfl

theorem hasAttr_removeAttrN_self (n : DNode) (name : String) :
    hasAttr (removeAttrN n name) name = false := by
  cases n with
  | elem r nm a l c =>
      simp only [hasAttr, getAttr, removeAttrN, DNode.withAttrs, DNode.attrs]
      rw [List.find?_eq_none.mpr]
      · rfl
      · intro p hp
        have := (List.mem_filter.mp hp).2
        simp only [bne_iff_ne, ne_eq] at this
        simp [this]
  | text r s => rfl
  | other r t s => rfl

theorem hasAttr_names (n : DNode) (s : String) (h : hasAttr n s = false) :
    ∀ p ∈ n.attrs, p.1 ≠ s := by
  intro p hp he
  have hnone : n.attrs.find? (fun p => p.1 == s) = none := by
    cases hfind : n.attrs.find? (fun p => p.1 == s) with
    | none => rfl
    | some q => simp [hasAttr, getAttr, hfind] at h
  exact List.find?_eq_none.mp hnone p hp (beq_iff_eq.mpr he)

theorem hasAttr_setAttrN_preserved_false (n : DNode) (name v s : String)
    (hne : name ≠ s) (h : hasAttr n s = false) :
    hasAttr (setAttrN n name v) s = false := by
  cases n with
  | elem r nm a l c =>
      simp only [hasAttr, getAttr, setAttrN, DNode.withAttrs, DNode.attrs] at h ⊢
      rw [find?_setAttrList_ne a name v s (fun hh => hne hh.symm)]
      exact h
  | text r s2 => exact h
  | other r t s2 => exact h

theorem hasAttr_removeAttrN_preserved_false (n : DNode) (name s : String)
    (h : hasAttr n s = false) :
    hasAttr (removeAttrN n name) s = false := by
  cases n with
  | elem r nm a l c =>
      have hnone : a.find? (fun p => p.1 == s) = none := by
        cases hfind : a.find? (fun p => p.1 == s) with
        | none => rfl
        | some q => simp [hasAttr, getAttr, DNode.attrs, hfind] at h
      simp only [hasAttr, getAttr, removeAttrN, DNode.withAttrs, DNode.attrs]
      rw [List.find?_eq_none.mpr]
      · rfl
      · intro p hp hpe
        have hmem := (List.mem_filter.mp hp).1
        exact List.find?_eq_none.mp hnone p hmem hpe
  | text r s2 => exact h
  | other r t s2 => exact h

theorem hasAttr_withLive (n : DNode) (l : Live) (s : String) :
    hasAttr (n.withLive l) s = hasAttr n s := by
  simp [hasAttr, getAttr, attrs_withLive]

/-! ## Helper lemmas: the attribute passes -/

theorem attrs_forwardValueUpdate (opts : Options) (a : DNode) (name value : String) :
    (forwardValueUpdate opts a name value).attrs = a.attrs := by
  unfold forwardValueUpdate
  split_ifs <;> simp [attrs_setLiveValue]

theorem attrs_forwardSelectedUpdate (opts : Options) (a : DNode) (name : String) :
    (forwardSelectedUpdate opts a name).attrs = a.attrs := by
  unfold forwardSelectedUpdate
  split_ifs <;> simp [attrs_setLiveSelected]

theorem attrs_forwardCheckedUpdate (opts : Options) (a : DNode) (name : String) :
    (forwardCheckedUpdate opts a name).attrs = a.attrs := by
  unfold forwardCheckedUpdate
  split_ifs <;> simp [attrs_setLiveChecked]

theorem attrs_forwardLiveUpdates (opts : Options) (a : DNode) (name value : String) :
    (forwardLiveUpdates opts a name value).attrs = a.attrs := by
  unfold forwardLiveUpdates
  rw [attrs_forwardCheckedUpdate, attrs_forwardSelectedUpdate, attrs_forwardValueUpdate]

theorem attrs_backwardSelectedReset (opts : Options) (a : DNode) (name : String) :
    (backwardSelectedReset opts a name).attrs = a.attrs := by
  unfold backwardSelectedReset
  split_ifs <;> simp [attrs_setLiveSelected]

theorem attrs_backwardCheckedReset (opts : Options) (a : DNode) (name : String) :
    (backwardCheckedReset opts a name).attrs = a.attrs := by
  unfold backwardCheckedReset
  split_ifs <;> simp [attrs_setLiveChecked]

theorem attrs_backwardLiveUpdates (opts : Options) (a : DNode) (name : String) :
    (backwardLiveUpdates opts a name).attrs = a.attrs := by
  unfold backwardLiveUpdates
  rw [attrs_backwardCheckedReset, attrs_backwardSelectedReset]

theorem forwardStep_refusedAttrs (opts : Options)
    (h : ∀ e n v, opts.beforeAttributeUpdated e n v = false)
    (st : DNode × List Ev) (p : String × String) :
    (visitAttrForwardStep opts st p).1.attrs = st.1.attrs ∧
    ∀ ev ∈ (visitAttrForwardStep opts st p).2, ev ∈ st.2 ∨ isAfterAttrEv ev = false := by
  unfold visitAttrForwardStep
  dsimp only
  split
  · rw [h]
    simp only [Bool.false_eq_true, if_false]
    refine ⟨attrs_forwardLiveUpdates opts st.1 p.1 p.2, ?_⟩
    intro ev hev
    rcases List.mem_append.mp hev with h1 | h1
    · exact Or.inl h1
    · simp only [List.mem_singleton] at h1
      subst h1
      exact Or.inr rfl
  · exact ⟨attrs_forwardLiveUpdates opts st.1 p.1 p.2, fun ev hev => Or.inl hev⟩

theorem foldForward_refusedAttrs (opts : Options)
    (h : ∀ e n v, opts.beforeAttributeUpdated e n v = false) :
    ∀ (l : List (String × String)) (st : DNode × List Ev),
      (l.foldl (visitAttrForwardStep opts) st).1.attrs = st.1.attrs ∧
      ∀ ev ∈ (l.foldl (visitAttrForwardStep opts) st).2, ev ∈ st.2 ∨ isAfterAttrEv ev = false
  | [], st => ⟨rfl, fun _ hev => Or.inl hev⟩
  | p :: rest, st => by
      have hstep := forwardStep_refusedAttrs opts h st p
      have hrest := foldForward_refusedAttrs opts h rest (visitAttrForwardStep opts st p)
      rw [List.foldl_cons]
      refine ⟨hrest.1.trans hstep.1, ?_⟩
      intro ev hev
      rcases hrest.2 ev hev with h1 | h1
      · exact hstep.2 ev h1
      · exact Or.inr h1

theorem backwardStep_refusedAttrs (opts : Options) (toN : DNode)
    (h : ∀ e n v, opts.beforeAttributeUpdated e n v = false)
    (st : DNode × List Ev) (p : String × String) :
    (visitAttrBackwardStep opts toN st p).1.attrs = st.1.attrs ∧
    ∀ ev ∈ (visitAttrBackwardStep opts toN st p).2, ev ∈ st.2 ∨ isAfterAttrEv ev = false := by
  unfold visitAttrBackwardStep
  dsimp only
  split
  · rw [h]
    simp only [Bool.false_eq_true, if_false]
    refine ⟨attrs_backwardLiveUpdates opts st.1 p.1, ?_⟩
    intro ev hev
    rcases List.mem_append.mp hev with h1 | h1
    · exact Or.inl h1
    · simp only [List.mem_singleton] at h1
      subst h1
      exact Or.inr rfl
  · exact ⟨rfl, fun ev hev => Or.inl hev⟩

theorem foldBackward_refusedAttrs (opts : Options) (toN : DNode)
    (h : ∀ e n v, opts.beforeAttributeUpdated e n v = false) :
    ∀ (l : List (String × String)) (st : DNode × List Ev),
      (l.foldl (visitAttrBackwardStep opts toN) st).1.attrs = st.1.attrs ∧
      ∀ ev ∈ (l.foldl (visitAttrBackwardStep opts toN) st).2,
        ev ∈ st.2 ∨ isAfterAttrEv ev = false
  | [], st => ⟨rfl, fun _ hev => Or.inl hev⟩
  | p :: rest, st => by
      have hstep := backwardStep_refusedAttrs opts toN h st p
      have hrest := foldBackward_refusedAttrs opts toN h rest (visitAttrBackwardStep opts toN st p)
      rw [List.foldl_cons]
      refine ⟨hrest.1.trans hstep.1, ?_⟩
      intro ev hev
      rcases hrest.2 ev hev with h1 | h1
      · exact hstep.2 ev h1
      · exact Or.inr h1

theorem visitAttributes_refusedAttrs (opts : Options) (a b : DNode)
    (h : ∀ e n v, opts.beforeAttributeUpdated e n v = false) :
    (visitAttributes opts a b).1.attrs =
      (if hasAttr a "morphlex-dirty" then removeAttrN a "morphlex-dirty" else a).attrs ∧
    ∀ ev ∈ (visitAttributes opts a b).2, isAfterAttrEv ev = false := by
  unfold visitAttributes
  set a0 := if hasAttr a "morphlex-dirty" then removeAttrN a "morphlex-dirty" else a with ha0
  set st := b.attrs.foldl (visitAttrForwardStep opts) (a0, []) with hst
  have hfwd := foldForward_refusedAttrs opts h b.attrs (a0, [])
  have hbwd := foldBackward_refusedAttrs opts b h st.1.attrs.reverse st
  constructor
  · exact hbwd.1.trans hfwd.1
  · intro ev hev
    rcases hbwd.2 ev hev with h1 | h1
    · rcases hfwd.2 ev h1 with h2 | h2
      · simp at h2
      · exact h2
    · exact h1

theorem hasAttr_congr_attrs (x y : DNode) (s : String) (h : x.attrs = y.attrs) :
    hasAttr x s = hasAttr y s := by
  simp [hasAttr, getAttr, h]

theorem getAttr_congr_attrs (x y : DNode) (s : String) (h : x.attrs = y.attrs) :
    getAttr x s = getAttr y s := by
  simp [getAttr, h]

theorem forwardStep_gatedName (opts : Options) (n : String)
    (h : ∀ e v, opts.beforeAttributeUpdated e n v = false)
    (st : DNode × List Ev) (p : String × String) :
    getAttr (visitAttrForwardStep opts st p).1 n = getAttr st.1 n ∧
    ∀ ev ∈ (visitAttrForwardStep opts st p).2, ev ∈ st.2 ∨ isAfterAttrEvAt n ev = false := by
  have hflu : getAttr (forwardLiveUpdates opts st.1 p.1 p.2) n = getAttr st.1 n :=
    getAttr_congr_attrs _ _ n (attrs_forwardLiveUpdates opts st.1 p.1 p.2)
  unfold visitAttrForwardStep
  dsimp only
  split
  · by_cases hpn : p.1 = n
    · have hhook :
          opts.beforeAttributeUpdated (forwardLiveUpdates opts st.1 p.1 p.2) p.1 (some p.2)
            = false := by
        rw [hpn]; exact h _ _
      rw [hhook]
      simp only [Bool.false_eq_true, if_false]
      refine ⟨hflu, ?_⟩
      intro ev hev
      rcases List.mem_append.mp hev with h1 | h1
      · exact Or.inl h1
      · simp only [List.mem_singleton] at h1
        subst h1
        exact Or.inr rfl
    · have hne : n ≠ p.1 := fun hh => hpn hh.symm
      have hbe : (p.1 == n) = false := beq_eq_false_iff_ne.mpr hpn
      split
      · refine ⟨by
          rw [getAttr_setAttrN_ne _ p.1 p.2 n hne]; exact hflu, ?_⟩
        intro ev hev
        rcases List.mem_append.mp hev with h1 | h1
        · rcases List.mem_append.mp h1 with h2 | h2
          · exact Or.inl h2
          · simp only [List.mem_singleton] at h2
            subst h2
            exact Or.inr rfl
        · simp only [List.mem_singleton] at h1
          subst h1
          exact Or.inr hbe
      · refine ⟨hflu, ?_⟩
        intro ev hev
        rcases List.mem_append.mp hev with h1 | h1
        · exact Or.inl h1
        · simp only [List.mem_singleton] at h1
          subst h1
          exact Or.inr rfl
  · exact ⟨hflu, fun ev hev => Or.inl hev⟩

theorem foldForward_gatedName (opts : Options) (n : String)
    (h : ∀ e v, opts.beforeAttributeUpdated e n v = false) :
    ∀ (l : List (String × String)) (st : DNode × List Ev),
      getAttr (l.foldl (visitAttrForwardStep opts) st).1 n = getAttr st.1 n ∧
      ∀ ev ∈ (l.foldl (visitAttrForwardStep opts) st).2,
        ev ∈ st.2 ∨ isAfterAttrEvAt n ev = false
  | [], st => ⟨rfl, fun _ hev => Or.inl hev⟩
  | p :: rest, st => by
      have hstep := forwardStep_gatedName opts n h st p
      have hrest := foldForward_gatedName opts n h rest (visitAttrForwardStep opts st p)
      rw [List.foldl_cons]
      refine ⟨hrest.1.trans hstep.1, ?_⟩
      intro ev hev
      rcases hrest.2 ev hev with h1 | h1
      · exact hstep.2 ev h1
      · exact Or.inr h1

theorem backwardStep_gatedName (opts : Options) (toN : DNode) (n : String)
    (h : ∀ e v, opts.beforeAttributeUpdated e n v = false)
    (st : DNode × List Ev) (p : String × String) :
    getAttr (visitAttrBackwardStep opts toN st p).1 n = getAttr st.1 n ∧
    ∀ ev ∈ (visitAttrBackwardStep opts toN st p).2, ev ∈ st.2 ∨ isAfterAttrEvAt n ev = false := by
  have hblu : getAttr (backwardLiveUpdates opts st.1 p.1) n = getAttr st.1 n :=
    getAttr_congr_attrs _ _ n (attrs_backwardLiveUpdates opts st.1 p.1)
  unfold visitAttrBackwardStep
  dsimp only
  split
  · by_cases hpn : p.1 = n
    · have hhook :
          opts.beforeAttributeUpdated (backwardLiveUpdates opts st.1 p.1) p.1 none = false := by
        rw [hpn]; exact h _ _
      rw [hhook]
      simp only [Bool.false_eq_true, if_false]
      refine ⟨hblu, ?_⟩
      intro ev hev
      rcases List.mem_append.mp hev with h1 | h1
      · exact Or.inl h1
      · simp only [List.mem_singleton] at h1
        subst h1
        exact Or.inr rfl
    · have hne : n ≠ p.1 := fun hh => hpn hh.symm
      have hbe : (p.1 == n) = false := beq_eq_false_iff_ne.mpr hpn
      split
      · refine ⟨by
          rw [getAttr_removeAttrN_ne _ p.1 n hne]; exact hblu, ?_⟩
        intro ev hev
        rcases List.mem_append.mp hev with h1 | h1
        · rcases List.mem_append.mp h1 with h2 | h2
          · exact Or.inl h2
          · simp only [List.mem_singleton] at h2
            subst h2
            exact Or.inr rfl
        · simp only [List.mem_singleton] at h1
          subst h1
          exact Or.inr hbe
      · refine ⟨hblu, ?_⟩
        intro ev hev
        rcases List.mem_append.mp hev with h1 | h1
        · exact Or.inl h1
        · simp only [List.mem_singleton] at h1
          subst h1
          exact Or.inr rfl
  · exact ⟨rfl, fun ev hev => Or.inl hev⟩

theorem foldBackward_gatedName (opts : Options) (toN : DNode) (n : String)
    (h : ∀ e v, opts.beforeAttributeUpdated e n v = false) :
    ∀ (l : List (String × String)) (st : DNode × List Ev),
      getAttr (l.foldl (visitAttrBackwardStep opts toN) st).1 n = getAttr st.1 n ∧
      ∀ ev ∈ (l.foldl (visitAttrBackwardStep opts toN) st).2,
        ev ∈ st.2 ∨ isAfterAttrEvAt n ev = false
  | [], st => ⟨rfl, fun _ hev => Or.inl hev⟩
  | p :: rest, st => by
      have hstep := backwardStep_gatedName opts toN n h st p
      have hrest :=
        foldBackward_gatedName opts toN n h rest (visitAttrBackwardStep opts toN st p)
      rw [List.foldl_cons]
      refine ⟨hrest.1.trans hstep.1, ?_⟩
      intro ev hev
      rcases hrest.2 ev hev with h1 | h1
      · exact hstep.2 ev h1
      · exact Or.inr h1

theorem visitAttributes_gatedName (opts : Options) (a b : DNode) (n : String)
    (h : ∀ e v, opts.beforeAttributeUpdated e n v = false)
    (hdirty : n ≠ "morphlex-dirty") :
    getAttr (visitAttributes opts a b).1 n = getAttr a n ∧
    ∀ ev ∈ (visitAttributes opts a b).2, isAfterAttrEvAt n ev = false := by
  unfold visitAttributes
  set a0 := if hasAttr a "morphlex-dirty" then removeAttrN a "morphlex-dirty" else a with ha0
  have ha0n : getAttr a0 n = getAttr a n := by
    rw [ha0]
    split
    · exact getAttr_removeAttrN_ne a "morphlex-dirty" n hdirty
    · rfl
  set st := b.attrs.foldl (visitAttrForwardStep opts) (a0, []) with hst
  have hfwd := foldForward_gatedName opts n h b.attrs (a0, [])
  have hbwd := foldBackward_gatedName opts b n h st.1.attrs.reverse st
  constructor
  · exact (hbwd.1.trans hfwd.1).trans ha0n
  · intro ev hev
    rcases hbwd.2 ev hev with h1 | h1
    · rcases hfwd.2 ev h1 with h2 | h2
      · simp at h2
      · exact h2
    · exact h1

theorem morphNodeFuel_beforeNodeVisited_gate (fuel : Nat) (opts : Options) (im : IdMap)
    (parentRef : Nat) (a b : DNode) (h : opts.beforeNodeVisited a b = false) :
    morphNodeFuel fuel opts im parentRef a b = (MorphRes.inPlace a, []) := by
  cases fuel with
  | zero => rfl
  | succ f =>
      unfold morphNodeFuel
      rw [h]
      simp

theorem visitChildNodesGo_beforeChildrenVisited_gate (opts : Options) (im : IdMap)
    (mc : DNode → DNode → MorphRes × List Ev) (a b : DNode)
    (h : opts.beforeChildrenVisited a = false) :
    visitChildNodesGo opts im mc a b = (a.children, []) := by
  unfold visitChildNodesGo
  rw [h]
  rfl

theorem forwardStep_dirtyFree (opts : Options) (st : DNode × List Ev) (p : String × String)
    (hp : p.1 ≠ "morphlex-dirty") (hx : hasAttr st.1 "morphlex-dirty" = false) :
    hasAttr (visitAttrForwardStep opts st p).1 "morphlex-dirty" = false ∧
    ∀ ev ∈ (visitAttrForwardStep opts st p).2,
      ev ∈ st.2 ∨ evNamesAttr "morphlex-dirty" ev = false := by
  have hflu : hasAttr (forwardLiveUpdates opts st.1 p.1 p.2) "morphlex-dirty" = false := by
    rw [hasAttr_congr_attrs _ st.1 _ (attrs_forwardLiveUpdates opts st.1 p.1 p.2)]
    exact hx
  have hname : (p.1 == "morphlex-dirty") = false := beq_eq_false_iff_ne.mpr hp
  unfold visitAttrForwardStep
  dsimp only
  split
  · split
    · refine ⟨hasAttr_setAttrN_preserved_false _ _ _ _ hp hflu, ?_⟩
      intro ev hev
      rcases List.mem_append.mp hev with h1 | h1
      · rcases List.mem_append.mp h1 with h2 | h2
        · exact Or.inl h2
        · simp only [List.mem_singleton] at h2
          subst h2
          exact Or.inr (by simp [evNamesAttr, hname])
      · simp only [List.mem_singleton] at h1
        subst h1
        exact Or.inr (by simp [evNamesAttr, hname])
    · refine ⟨hflu, ?_⟩
      intro ev hev
      rcases List.mem_append.mp hev with h1 | h1
      · exact Or.inl h1
      · simp only [List.mem_singleton] at h1
        subst h1
        exact Or.inr (by simp [evNamesAttr, hname])
  · exact ⟨hflu, fun ev hev => Or.inl hev⟩

theorem foldForward_dirtyFree (opts : Options) :
    ∀ (l : List (String × String)) (st : DNode × List Ev),
      (∀ p ∈ l, p.1 ≠ "morphlex-dirty") →
      hasAttr st.1 "morphlex-dirty" = false →
      hasAttr (l.foldl (visitAttrForwardStep opts) st).1 "morphlex-dirty" = false ∧
      ∀ ev ∈ (l.foldl (visitAttrForwardStep opts) st).2,
        ev ∈ st.2 ∨ evNamesAttr "morphlex-dirty" ev = false
  | [], st, _, hx => ⟨hx, fun _ hev => Or.inl hev⟩
  | p :: rest, st, hl, hx => by
      have hstep := forwardStep_dirtyFree opts st p (hl p (List.mem_cons_self p rest)) hx
      have hrest := foldForward_dirtyFree opts rest (visitAttrForwardStep opts st p)
        (fun q hq => hl q (List.mem_cons_of_mem p hq)) hstep.1
      rw [List.foldl_cons]
      refine ⟨hrest.1, ?_⟩
      intro ev hev
      rcases hrest.2 ev hev with h1 | h1
      · exact hstep.2 ev h1
      · exact Or.inr h1

theorem backwardStep_dirtyFree (opts : Options) (toN : DNode) (st : DNode × List Ev)
    (p : String × String)
    (hp : p.1 ≠ "morphlex-dirty") (hx : hasAttr st.1 "morphlex-dirty" = false) :
    hasAttr (visitAttrBackwardStep opts toN st p).1 "morphlex-dirty" = false ∧
    ∀ ev ∈ (visitAttrBackwardStep opts toN st p).2,
      ev ∈ st.2 ∨ evNamesAttr "morphlex-dirty" ev = false := by
  have hblu : hasAttr (backwardLiveUpdates opts st.1 p.1) "morphlex-dirty" = false := by
    rw [hasAttr_congr_attrs _ st.1 _ (attrs_backwardLiveUpdates opts st.1 p.1)]
    exact hx
  have hname : (p.1 == "morphlex-dirty") = false := beq_eq_false_iff_ne.mpr hp
  unfold visitAttrBackwardStep
  dsimp only
  split
  · split
    · refine ⟨hasAttr_removeAttrN_preserved_false _ _ _ hblu, ?_⟩
      intro ev hev
      rcases List.mem_append.mp hev with h1 | h1
      · rcases List.mem_append.mp h1 with h2 | h2
        · exact Or.inl h2
        · simp only [List.mem_singleton] at h2
          subst h2
          exact Or.inr (by simp [evNamesAttr, hname])
      · simp only [List.mem_singleton] at h1
        subst h1
        exact Or.inr (by simp [evNamesAttr, hname])
    · refine ⟨hblu, ?_⟩
      intro ev hev
      rcases List.mem_append.mp hev with h1 | h1
      · exact Or.inl h1
      · simp only [List.mem_singleton] at h1
        subst h1
        exact Or.inr (by simp [evNamesAttr, hname])
  · exact ⟨hx, fun ev hev => Or.inl hev⟩

theorem foldBackward_dirtyFree (opts : Options) (toN : DNode) :
    ∀ (l : List (String × String)) (st : DNode × List Ev),
      (∀ p ∈ l, p.1 ≠ "morphlex-dirty") →
      hasAttr st.1 "morphlex-dirty" = false →
      hasAttr (l.foldl (visitAttrBackwardStep opts toN) st).1 "morphlex-dirty" = false ∧
      ∀ ev ∈ (l.foldl (visitAttrBackwardStep opts toN) st).2,
        ev ∈ st.2 ∨ evNamesAttr "morphlex-dirty" ev = false
  | [], st, _, hx => ⟨hx, fun _ hev => Or.inl hev⟩
  | p :: rest, st, hl, hx => by
      have hstep := backwardStep_dirtyFree opts toN st p (hl p (List.mem_cons_self p rest)) hx
      have hrest := foldBackward_dirtyFree opts toN rest (visitAttrBackwardStep opts toN st p)
        (fun q hq => hl q (List.mem_cons_of_mem p hq)) hstep.1
      rw [List.foldl_cons]
      refine ⟨hrest.1, ?_⟩
      intro ev hev
      rcases hrest.2 ev hev with h1 | h1
      · exact hstep.2 ev h1
      · exact Or.inr h1

/-! ## Helper lemmas towards C2 -/

theorem valInv_refl (x : DNode) : valInv x x := ⟨rfl, rfl, rfl, rfl⟩

theorem valInv_trans {x y z : DNode} (h1 : valInv x y) (h2 : valInv y z) : valInv x z :=
  ⟨h1.1.trans h2.1, h1.2.1.trans h2.2.1, h1.2.2.1.trans h2.2.2.1, h1.2.2.2.trans h2.2.2.2⟩

theorem valInv_setLiveSelected (a : DNode) (b : Bool) : valInv (setLiveSelected a b) a :=
  ⟨(valueParts_setLiveSelected a b).1, (valueParts_setLiveSelected a b).2,
    by simp [getAttr, attrs_setLiveSelected], localName_withLive a _⟩

theorem valInv_setLiveChecked (a : DNode) (b : Bool) : valInv (setLiveChecked a b) a :=
  ⟨(valueParts_setLiveChecked a b).1, (valueParts_setLiveChecked a b).2,
    by simp [getAttr, attrs_setLiveChecked], localName_withLive a _⟩

theorem valInv_forwardSelectedUpdate (opts : Options) (a : DNode) (name : String) :
    valInv (forwardSelectedUpdate opts a name) a := by
  unfold forwardSelectedUpdate
  split_ifs <;> first | exact valInv_setLiveSelected a _ | exact valInv_refl a

theorem valInv_forwardCheckedUpdate (opts : Options) (a : DNode) (name : String) :
    valInv (forwardCheckedUpdate opts a name) a := by
  unfold forwardCheckedUpdate
  split_ifs <;> first | exact valInv_setLiveChecked a _ | exact valInv_refl a

theorem valInv_backwardSelectedReset (opts : Options) (a : DNode) (name : String) :
    valInv (backwardSelectedReset opts a name) a := by
  unfold backwardSelectedReset
  split_ifs <;> first | exact valInv_setLiveSelected a _ | exact valInv_refl a

theorem valInv_backwardCheckedReset (opts : Options) (a : DNode) (name : String) :
    valInv (backwardCheckedReset opts a name) a := by
  unfold backwardCheckedReset
  split_ifs <;> first | exact valInv_setLiveChecked a _ | exact valInv_refl a

theorem valInv_setAttrN_ne (a : DNode) (name v : String) (h : name ≠ "value") :
    valInv (setAttrN a name v) a :=
  ⟨by rw [live_setAttrN], by rw [live_setAttrN],
    getAttr_setAttrN_ne a name v "value" (fun hh => h hh.symm), localName_setAttrN a name v⟩

theorem valInv_removeAttrN_ne (a : DNode) (name : String) (h : name ≠ "value") :
    valInv (removeAttrN a name) a :=
  ⟨by rw [live_removeAttrN], by rw [live_removeAttrN],
    getAttr_removeAttrN_ne a name "value" (fun hh => h hh.symm), localName_removeAttrN a name⟩

theorem forwardValueUpdate_ne (opts : Options) (a : DNode) (name value : String)
    (h : name ≠ "value") : forwardValueUpdate opts a name value = a := by
  unfold forwardValueUpdate
  rw [if_neg]
  simp [h]

theorem forwardStep_nonvalue (opts : Options) (st : DNode × List Ev) (p : String × String)
    (hp : p.1 ≠ "value") :
    valInv (visitAttrForwardStep opts st p).1 st.1 := by
  have hflu : valInv (forwardLiveUpdates opts st.1 p.1 p.2) st.1 := by
    unfold forwardLiveUpdates
    rw [forwardValueUpdate_ne opts st.1 p.1 p.2 hp]
    exact valInv_trans (valInv_forwardCheckedUpdate opts _ p.1)
      (valInv_forwardSelectedUpdate opts st.1 p.1)
  unfold visitAttrForwardStep
  dsimp only
  split
  · split
    · exact valInv_trans (valInv_setAttrN_ne _ p.1 p.2 hp) hflu
    · exact hflu
  · exact hflu

theorem foldForward_nonvalue (opts : Options) :
    ∀ (l : List (String × String)) (st : DNode × List Ev),
      (∀ p ∈ l, p.1 ≠ "value") →
      valInv (l.foldl (visitAttrForwardStep opts) st).1 st.1
  | [], _, _ => valInv_refl _
  | p :: rest, st, hl => by
      rw [List.foldl_cons]
      exact valInv_trans
        (foldForward_nonvalue opts rest (visitAttrForwardStep opts st p)
          (fun q hq => hl q (List.mem_cons_of_mem p hq)))
        (forwardStep_nonvalue opts st p (hl p (List.mem_cons_self p rest)))

theorem isInput_localName (x : DNode) (h : isInputElement x = true) :
    x.localName = "input" := beq_iff_eq.mp h

theorem inputValue_of_dirty (x : DNode) (h : x.live.valueDirty = true) :
    inputValue x = x.live.value := by
  simp [inputValue, h]

theorem forwardStep_value (opts : Options) (st : DNode × List Ev) (w : String)
    (hpc : opts.preserveChanges = true)
    (hin : isInputElement st.1 = true)
    (hd : st.1.live.valueDirty = true)
    (hne : st.1.live.value ≠ inputDefaultValue st.1)
    (hhook : ∀ e n v, opts.beforeAttributeUpdated e n v = true) :
    (visitAttrForwardStep opts st ("value", w)).1.live.value = st.1.live.value ∧
    (visitAttrForwardStep opts st ("value", w)).1.live.valueDirty = true ∧
    getAttr (visitAttrForwardStep opts st ("value", w)).1 "value" = some w ∧
    (visitAttrForwardStep opts st ("value", w)).1.localName = st.1.localName := by
  have hval : forwardValueUpdate opts st.1 "value" w = st.1 := by
    unfold forwardValueUpdate
    rw [if_pos (by decide : (("value" : String) == "value") = true)]
    split
    · rw [if_neg]
      rw [hpc]
      simp only [Bool.not_true, Bool.false_or]
      rw [inputValue_of_dirty st.1 hd]
      simp [hne]
    · rfl
  have hflu : forwardLiveUpdates opts st.1 "value" w = st.1 := by
    unfold forwardLiveUpdates
    rw [hval]
    unfold forwardSelectedUpdate
    rw [if_neg (by decide)]
    unfold forwardCheckedUpdate
    rw [if_neg (by decide)]
  have hln : st.1.localName ≠ "" := by
    rw [isInput_localName st.1 hin]
    decide
  unfold visitAttrForwardStep
  dsimp only
  rw [hflu]
  split
  · rw [hhook]
    simp only [if_true]
    refine ⟨by rw [live_setAttrN], ?_, ?_, localName_setAttrN st.1 "value" w⟩
    · rw [live_setAttrN]; exact hd
    · exact getAttr_setAttrN_self st.1 hln "value" w
  · rename_i hcond
    have : getAttr st.1 "value" = some w := by
      exact bne_eq_false_iff_eq.mp (by simpa using hcond)
    exact ⟨rfl, hd, this, rfl⟩

theorem backwardStep_bvalue (opts : Options) (b : DNode) (st : DNode × List Ev)
    (p : String × String) (hb : hasAttr b "value" = true) :
    valInv (visitAttrBackwardStep opts b st p).1 st.1 := by
  unfold visitAttrBackwardStep
  dsimp only
  split
  · rename_i hcond
    have hp : p.1 ≠ "value" := by
      intro he
      rw [he] at hcond
      simp [hb] at hcond
    have hblu : valInv (backwardLiveUpdates opts st.1 p.1) st.1 := by
      unfold backwardLiveUpdates
      exact valInv_trans (valInv_backwardCheckedReset opts _ p.1)
        (valInv_backwardSelectedReset opts st.1 p.1)
    split
    · exact valInv_trans (valInv_removeAttrN_ne _ p.1 hp) hblu
    · exact hblu
  · exact valInv_refl st.1

theorem foldBackward_bvalue (opts : Options) (b : DNode) (hb : hasAttr b "value" = true) :
    ∀ (l : List (String × String)) (st : DNode × List Ev),
      valInv (l.foldl (visitAttrBackwardStep opts b) st).1 st.1
  | [], _ => valInv_refl _
  | p :: rest, st => by
      rw [List.foldl_cons]
      exact valInv_trans
        (foldBackward_bvalue opts b hb rest (visitAttrBackwardStep opts b st p))
        (backwardStep_bvalue opts b st p hb)

theorem find?_attr_decomp :
    ∀ (l : List (String × String)) (k w : String),
      (l.find? (fun p => p.1 == k)).map Prod.snd = some w →
      (l.map Prod.fst).Nodup →
      ∃ l1 l2, l = l1 ++ (k, w) :: l2 ∧ (∀ p ∈ l1, p.1 ≠ k) ∧ (∀ p ∈ l2, p.1 ≠ k)
  | [], k, w, h, _ => by simp [List.find?] at h
  | p :: rest, k, w, h, hnd => by
      by_cases hp : (p.1 == k) = true
      · rw [find?_cons_pos' (fun p => p.1 == k) p rest hp] at h
        have hk : p.1 = k := beq_iff_eq.mp hp
        have hw : p.2 = w := by simpa using h
        have hpkw : p = (k, w) := by
          cases p
          simp_all
        have hnd2 : (p.1 :: rest.map Prod.fst).Nodup := by simpa using hnd
        refine ⟨[], rest, by rw [← hpkw]; simp, by simp, ?_⟩
        intro q hq he
        apply (List.nodup_cons.mp hnd2).1
        rw [hk, ← he]
        exact List.mem_map_of_mem Prod.fst hq
      · have hnd2 : (p.1 :: rest.map Prod.fst).Nodup := by simpa using hnd
        rw [find?_cons_neg' (fun p => p.1 == k) p rest (by simpa using hp)] at h
        obtain ⟨l1, l2, heq, h1, h2⟩ :=
          find?_attr_decomp rest k w h (List.nodup_cons.mp hnd2).2
        refine ⟨p :: l1, l2, by rw [heq]; rfl, ?_, h2⟩
        intro q hq
        rcases List.mem_cons.mp hq with hq | hq
        · subst hq
          simpa using hp
        · exact h1 q hq

theorem visitAttributes_eq (opts : Options) (a b : DNode) :
    visitAttributes opts a b =
      (b.attrs.foldl (visitAttrForwardStep opts)
          (if hasAttr a "morphlex-dirty" then removeAttrN a "morphlex-dirty" else a,
            [])).1.attrs.reverse.foldl (visitAttrBackwardStep opts b)
        (b.attrs.foldl (visitAttrForwardStep opts)
          (if hasAttr a "morphlex-dirty" then removeAttrN a "morphlex-dirty" else a, [])) :=
  rfl

/-- C2: with `preserveChanges` enabled and all attribute updates approved,
morphing the attributes of an input whose live value differs from its default
value against a reference carrying a declared `value` attribute leaves the
live value unchanged, while the `value` attribute itself is updated to the
reference's declared value through the general attribute rule. -/
theorem input_live_value_preserved (opts : Options) (a b : DNode)
    (hpc : opts.preserveChanges = true)
    (hhook : ∀ e n v, opts.beforeAttributeUpdated e n v = true)
    (hin : isInputElement a = true)
    (hdirty : inputValue a ≠ inputDefaultValue a)
    (w : String) (hbv : getAttr b "value" = some w)
    (hnodup : (b.attrs.map Prod.fst).Nodup) :
    inputValue (visitAttributes opts a b).1 = inputValue a ∧
    getAttr (visitAttributes opts a b).1 "value" = getAttr b "value" := by
  have hd : a.live.valueDirty = true := by
    by_contra hcon
    have hfalse : a.live.valueDirty = false := by
      cases hdd : a.live.valueDirty
      · rfl
      · exact absurd hdd hcon
    apply hdirty
    unfold inputValue inputDefaultValue
    rw [hfalse]
    simp
  have hu : inputValue a = a.live.value := inputValue_of_dirty a hd
  obtain ⟨l1, l2, hsplit, hl1, hl2⟩ := find?_attr_decomp b.attrs "value" w hbv hnodup
  rw [visitAttributes_eq]
  set a0 := if hasAttr a "morphlex-dirty" then removeAttrN a "morphlex-dirty" else a with ha0def
  have hinv0 : valInv a0 a := by
    rw [ha0def]
    split
    · exact valInv_removeAttrN_ne a "morphlex-dirty" (by decide)
    · exact valInv_refl a
  have hstep1 := foldForward_nonvalue opts l1 (a0, []) hl1
  set st1 := l1.foldl (visitAttrForwardStep opts) (a0, []) with hst1def
  have hinv1 : valInv st1.1 a := valInv_trans hstep1 hinv0
  have hin1 : isInputElement st1.1 = true := by
    unfold isInputElement
    rw [hinv1.2.2.2]
    exact hin
  have hd1 : st1.1.live.valueDirty = true := hinv1.2.1.trans hd
  have hne1 : st1.1.live.value ≠ inputDefaultValue st1.1 := by
    rw [hinv1.1]
    unfold inputDefaultValue
    rw [hinv1.2.2.1]
    rw [← hu]
    exact hdirty
  have hstep2 := forwardStep_value opts st1 w hpc hin1 hd1 hne1 hhook
  set st2 := visitAttrForwardStep opts st1 ("value", w) with hst2def
  have hstep3 := foldForward_nonvalue opts l2 st2 hl2
  set st3 := l2.foldl (visitAttrForwardStep opts) st2 with hst3def
  have hfold : b.attrs.foldl (visitAttrForwardStep opts) (a0, []) = st3 := by
    rw [hsplit, List.foldl_append, List.foldl_cons, ← hst1def, ← hst2def, ← hst3def]
  have hbval : hasAttr b "value" = true := by
    simp [hasAttr, hbv]
  have hstep4 := foldBackward_bvalue opts b hbval st3.1.attrs.reverse st3
  rw [hfold]
  constructor
  · have hdirty4 : (st3.1.attrs.reverse.foldl (visitAttrBackwardStep opts b) st3).1.live.valueDirty
        = true := hstep4.2.1.trans (hstep3.2.1.trans hstep2.2.1)
    rw [inputValue_of_dirty _ hdirty4, hu]
    exact hstep4.1.trans (hstep3.1.trans (hstep2.1.trans hinv1.1))
  · rw [hbv]
    exact hstep4.2.2.1.trans (hstep3.2.2.1.trans hstep2.2.2.1)

/-- Witness for C2 at the concrete scenario: declared `value="a"`, live value
`"c"`, reference `value="b"`: the live value stays `"c"` and the attribute
becomes `"b"`. -/
theorem input_live_value_preserved_witness :
    inputValue (visitAttributes {preserveChanges := true} c2From c2To).1 = inputValue c2From ∧
    getAttr (visitAttributes {preserveChanges := true} c2From c2To).1 "value"
        = getAttr c2To "value" :=
  input_live_value_preserved {preserveChanges := true} c2From c2To rfl
    (fun _ _ _ => rfl) rfl (by decide) "b" rfl (by decide)

/-- C10: whenever `#visitAttributes` visits an element carrying
`morphlex-dirty`, the marker is removed without consulting
`beforeAttributeUpdated` or firing `afterAttributeUpdated`: for every options
value — including one whose `beforeAttributeUpdated` always returns false —
the morphed element no longer carries the marker (provided the reference does
not itself declare it, which would re-add it through the ordinary forward
pass), and no attribute event in the log concerns `morphlex-dirty`. -/
theorem visitAttributes_dirty_marker_unhooked (opts : Options) (a b : DNode)
    (hfrom : hasAttr a "morphlex-dirty" = true)
    (hto : hasAttr b "morphlex-dirty" = false) :
    hasAttr (visitAttributes opts a b).1 "morphlex-dirty" = false ∧
    ∀ ev ∈ (visitAttributes opts a b).2, evNamesAttr "morphlex-dirty" ev = false := by
  unfold visitAttributes
  set a0 := if hasAttr a "morphlex-dirty" then removeAttrN a "morphlex-dirty" else a with ha0def
  have ha0 : hasAttr a0 "morphlex-dirty" = false := by
    rw [ha0def, if_pos hfrom]
    exact hasAttr_removeAttrN_self a _
  set st := b.attrs.foldl (visitAttrForwardStep opts) (a0, []) with hstdef
  have hfwd := foldForward_dirtyFree opts b.attrs (a0, []) (hasAttr_names b _ hto) ha0
  have hstnames : ∀ p ∈ st.1.attrs.reverse, p.1 ≠ "morphlex-dirty" := by
    intro p hp
    exact hasAttr_names st.1 _ hfwd.1 p (List.mem_reverse.mp hp)
  have hbwd := foldBackward_dirtyFree opts b st.1.attrs.reverse st hstnames hfwd.1
  refine ⟨hbwd.1, ?_⟩
  intro ev hev
  rcases hbwd.2 ev hev with h1 | h1
  · rcases hfwd.2 ev h1 with h2 | h2
    · simp at h2
    · exact h2
  · exact h1

/-- Witness for C10: a concrete element carrying `morphlex-dirty`, morphed
with options refusing every attribute update, still loses the marker and no
attribute event names it. -/
theorem visitAttributes_dirty_marker_unhooked_witness :
    hasAttr (visitAttributes refuseAttrs
        (DNode.elem 1 "div" [("morphlex-dirty", ""), ("x", "1")] {} [])
        (DNode.elem 2 "div" [("y", "2")] {} [])).1 "morphlex-dirty" = false ∧
    ∀ ev ∈ (visitAttributes refuseAttrs
        (DNode.elem 1 "div" [("morphlex-dirty", ""), ("x", "1")] {} [])
        (DNode.elem 2 "div" [("y", "2")] {} [])).2,
      evNamesAttr "morphlex-dirty" ev = false :=
  visitAttributes_dirty_marker_unhooked refuseAttrs _ _ rfl rfl

/-! ## Helper lemmas: the dirty-flag pre-pass -/

theorem flagAll_elem (p : DNode → Bool) (r : Nat) (nm : String)
    (a : List (String × String)) (lv : Live) (c : List DNode) :
    flagAll p (DNode.elem r nm a lv c) =
      if p (DNode.elem r nm a lv c) = true
      then setAttrN (DNode.elem r nm a lv (flagAllList p c)) "morphlex-dirty" ""
      else DNode.elem r nm a lv (flagAllList p c) := by
  rw [flagAll]

theorem setAttrN_elem (r : Nat) (nm : String) (a : List (String × String)) (lv : Live)
    (c : List DNode) (name v : String) :
    setAttrN (DNode.elem r nm a lv c) name v =
      DNode.elem r nm (setAttrList a name v) lv c := rfl

theorem subtreeNodes_elem (r : Nat) (nm : String) (a : List (String × String)) (lv : Live)
    (c : List DNode) :
    subtreeNodes (DNode.elem r nm a lv c) = DNode.elem r nm a lv c :: subtreeNodesList c := by
  rw [subtreeNodes]

theorem hasAttr_setAttrN_elem_self (r : Nat) (nm : String) (a : List (String × String))
    (lv : Live) (c : List DNode) (name v : String) :
    hasAttr (setAttrN (DNode.elem r nm a lv c) name v) name = true := by
  simp [hasAttr, getAttr, setAttrN_elem, DNode.attrs, find?_setAttrList_self]

mutual
theorem textContent_flagAll (p : DNode → Bool) :
    ∀ t : DNode, textContent (flagAll p t) = textContent t
  | DNode.elem r nm a lv c => by
      rw [flagAll_elem]
      split
      · rw [setAttrN_elem]
        show textContentList (flagAllList p c) = textContent (DNode.elem r nm a lv c)
        rw [textContent_flagAllList p c]
        rfl
      · show textContentList (flagAllList p c) = textContent (DNode.elem r nm a lv c)
        rw [textContent_flagAllList p c]
        rfl
  | DNode.text r s => rfl
  | DNode.other r t2 s => rfl

theorem textContent_flagAllList (p : DNode → Bool) :
    ∀ l : List DNode, textContentList (flagAllList p l) = textContentList l
  | [] => by rw [flagAllList]
  | t :: rest => by
      rw [flagAllList, textContentList, textContentList,
        textContent_flagAll p t, textContent_flagAllList p rest]
end

mutual
theorem flagAll_flags (p : DNode → Bool) (hpe : ∀ m, p m = true → m.localName ≠ "") :
    ∀ (t n : DNode), n ∈ subtreeNodes t → p n = true →
      ∃ n2 ∈ subtreeNodes (flagAll p t), n2.nref = n.nref ∧
        hasAttr n2 "morphlex-dirty" = true
  | DNode.elem r nm a lv c, n, hn, hp => by
      rw [subtreeNodes_elem] at hn
      rcases List.mem_cons.mp hn with h | h
      · subst h
        rw [flagAll_elem, if_pos hp, setAttrN_elem, subtreeNodes_elem]
        refine ⟨_, List.mem_cons_self _ _, rfl, ?_⟩
        have := hasAttr_setAttrN_elem_self r nm a lv (flagAllList p c) "morphlex-dirty" ""
        rw [setAttrN_elem] at this
        exact this
      · obtain ⟨n2, hmem, hr, hx⟩ := flagAllList_flags p hpe c n h hp
        rw [flagAll_elem]
        split
        · rw [setAttrN_elem, subtreeNodes_elem]
          exact ⟨n2, List.mem_cons_of_mem _ hmem, hr, hx⟩
        · rw [subtreeNodes_elem]
          exact ⟨n2, List.mem_cons_of_mem _ hmem, hr, hx⟩
  | DNode.text r s, n, hn, hp => by
      rcases List.mem_cons.mp (show n ∈ [DNode.text r s] from hn) with h | h
      · subst h
        exact absurd rfl (hpe _ hp)
      · exact absurd h (List.not_mem_nil n)
  | DNode.other r t2 s, n, hn, hp => by
      rcases List.mem_cons.mp (show n ∈ [DNode.other r t2 s] from hn) with h | h
      · subst h
        exact absurd rfl (hpe _ hp)
      · exact absurd h (List.not_mem_nil n)

theorem flagAllList_flags (p : DNode → Bool) (hpe : ∀ m, p m = true → m.localName ≠ "") :
    ∀ (l : List DNode) (n : DNode), n ∈ subtreeNodesList l → p n = true →
      ∃ n2 ∈ subtreeNodesList (flagAllList p l), n2.nref = n.nref ∧
        hasAttr n2 "morphlex-dirty" = true
  | [], n, hn, _ => by rw [subtreeNodesList] at hn; exact absurd hn (List.not_mem_nil n)
  | t :: rest, n, hn, hp => by
      rw [subtreeNodesList] at hn
      rw [flagAllList, subtreeNodesList]
      rcases List.mem_append.mp hn with h | h
      · obtain ⟨n2, hmem, hr, hx⟩ := flagAll_flags p hpe t n h hp
        exact ⟨n2, List.mem_append_left _ hmem, hr, hx⟩
      · obtain ⟨n2, hmem, hr, hx⟩ := flagAllList_flags p hpe rest n h hp
        exact ⟨n2, List.mem_append_right _ hmem, hr, hx⟩
end

mutual
theorem flagAll_keeps (p : DNode → Bool) :
    ∀ (t n : DNode), n ∈ subtreeNodes t → hasAttr n "morphlex-dirty" = true →
      ∃ n2 ∈ subtreeNodes (flagAll p t), n2.nref = n.nref ∧
        hasAttr n2 "morphlex-dirty" = true
  | DNode.elem r nm a lv c, n, hn, hx => by
      rw [subtreeNodes_elem] at hn
      rcases List.mem_cons.mp hn with h | h
      · subst h
        rw [flagAll_elem]
        split
        · rw [setAttrN_elem, subtreeNodes_elem]
          refine ⟨_, List.mem_cons_self _ _, rfl, ?_⟩
          have := hasAttr_setAttrN_elem_self r nm a lv (flagAllList p c) "morphlex-dirty" ""
          rw [setAttrN_elem] at this
          exact this
        · rw [subtreeNodes_elem]
          exact ⟨_, List.mem_cons_self _ _, rfl, hx⟩
      · obtain ⟨n2, hmem, hr, hx2⟩ := flagAllList_keeps p c n h hx
        rw [flagAll_elem]
        split
        · rw [setAttrN_elem, subtreeNodes_elem]
          exact ⟨n2, List.mem_cons_of_mem _ hmem, hr, hx2⟩
        · rw [subtreeNodes_elem]
          exact ⟨n2, List.mem_cons_of_mem _ hmem, hr, hx2⟩
  | DNode.text r s, n, hn, hx => ⟨n, hn, rfl, hx⟩
  | DNode.other r t2 s, n, hn, hx => ⟨n, hn, rfl, hx⟩

theorem flagAllList_keeps (p : DNode → Bool) :
    ∀ (l : List DNode) (n : DNode), n ∈ subtreeNodesList l →
      hasAttr n "morphlex-dirty" = true →
      ∃ n2 ∈ subtreeNodesList (flagAllList p l), n2.nref = n.nref ∧
        hasAttr n2 "morphlex-dirty" = true
  | [], n, hn, _ => by rw [subtreeNodesList] at hn; exact absurd hn (List.not_mem_nil n)
  | t :: rest, n, hn, hx => by
      rw [subtreeNodesList] at hn
      rw [flagAllList, subtreeNodesList]
      rcases List.mem_append.mp hn with h | h
      · obtain ⟨n2, hmem, hr, hx2⟩ := flagAll_keeps p t n h hx
        exact ⟨n2, List.mem_append_left _ hmem, hr, hx2⟩
      · obtain ⟨n2, hmem, hr, hx2⟩ := flagAllList_keeps p rest n h hx
        exact ⟨n2, List.mem_append_right _ hmem, hr, hx2⟩
end

mutual
theorem flagAll_corr (p : DNode → Bool) :
    ∀ (t n : DNode), n ∈ subtreeNodes t → p n = false →
      ∃ n2 ∈ subtreeNodes (flagAll p t), n2.nref = n.nref ∧ n2.attrs = n.attrs ∧
        n2.live = n.live ∧ textContent n2 = textContent n ∧ n2.localName = n.localName
  | DNode.elem r nm a lv c, n, hn, hp => by
      rw [subtreeNodes_elem] at hn
      rcases List.mem_cons.mp hn with h | h
      · subst h
        rw [flagAll_elem, if_neg (by simp [hp]), subtreeNodes_elem]
        refine ⟨_, List.mem_cons_self _ _, rfl, rfl, rfl, ?_, rfl⟩
        show textContentList (flagAllList p c) = textContent (DNode.elem r nm a lv c)
        rw [textContent_flagAllList p c]
        rfl
      · obtain ⟨n2, hmem, hs⟩ := flagAllList_corr p c n h hp
        rw [flagAll_elem]
        split
        · rw [setAttrN_elem, subtreeNodes_elem]
          exact ⟨n2, List.mem_cons_of_mem _ hmem, hs⟩
        · rw [subtreeNodes_elem]
          exact ⟨n2, List.mem_cons_of_mem _ hmem, hs⟩
  | DNode.text r s, n, hn, _ => ⟨n, hn, rfl, rfl, rfl, rfl, rfl⟩
  | DNode.other r t2 s, n, hn, _ => ⟨n, hn, rfl, rfl, rfl, rfl, rfl⟩

theorem flagAllList_corr (p : DNode → Bool) :
    ∀ (l : List DNode) (n : DNode), n ∈ subtreeNodesList l → p n = false →
      ∃ n2 ∈ subtreeNodesList (flagAllList p l), n2.nref = n.nref ∧ n2.attrs = n.attrs ∧
        n2.live = n.live ∧ textContent n2 = textContent n ∧ n2.localName = n.localName
  | [], n, hn, _ => by rw [subtreeNodesList] at hn; exact absurd hn (List.not_mem_nil n)
  | t :: rest, n, hn, hp => by
      rw [subtreeNodesList] at hn
      rw [flagAllList, subtreeNodesList]
      rcases List.mem_append.mp hn with h | h
      · obtain ⟨n2, hmem, hs⟩ := flagAll_corr p t n h hp
        exact ⟨n2, List.mem_append_left _ hmem, hs⟩
      · obtain ⟨n2, hmem, hs⟩ := flagAllList_corr p rest n h hp
        exact ⟨n2, List.mem_append_right _ hmem, hs⟩
end

theorem optionDirtyPred_congr (x y : DNode) (h1 : x.localName = y.localName)
    (h2 : x.attrs = y.attrs) (h3 : x.live = y.live) (h4 : textContent x = textContent y) :
    optionDirtyPred x = optionDirtyPred y := by
  unfold optionDirtyPred isOptionElement optionValue optionSelected optionDefaultSelected
  unfold hasAttr getAttr
  rw [h1, h2, h3, h4]

theorem textareaDirtyPred_congr (x y : DNode) (h1 : x.localName = y.localName)
    (h3 : x.live = y.live) (h4 : textContent x = textContent y) :
    textareaDirtyPred x = textareaDirtyPred y := by
  unfold textareaDirtyPred textareaValue textareaDefaultValue
  rw [h1, h3, h4]

theorem inputDirtyPred_localName (n : DNode) (h : inputDirtyPred n = true) :
    n.localName = "input" := by
  unfold inputDirtyPred isInputElement at h
  exact beq_iff_eq.mp ((Bool.and_eq_true _ _).mp h).1

theorem optionDirtyPred_localName (n : DNode) (h : optionDirtyPred n = true) :
    n.localName = "option" := by
  unfold optionDirtyPred isOptionElement at h
  exact beq_iff_eq.mp ((Bool.and_eq_true _ _).mp h).1

theorem textareaDirtyPred_localName (n : DNode) (h : textareaDirtyPred n = true) :
    n.localName = "textarea" := by
  unfold textareaDirtyPred at h
  exact beq_iff_eq.mp ((Bool.and_eq_true _ _).mp h).1

/-- C6 (amended): the dirty-flag pre-pass of the `morph` entry point runs only
when `preserveChanges` is off (with it on, the current tree enters the morph
unchanged), and flags exactly along the code's per-kind conditions over the
proper descendants of the current root: every descendant that is a dirty
input (`inputDirtyPred`), a dirty non-empty-valued option (`optionDirtyPred`)
or a dirty textarea (`textareaDirtyPred`) carries `morphlex-dirty`
afterwards. -/
theorem flagDirtyInputs_flags_dirty_descendants :
    (∀ (opts : Options) (fromN : DNode), opts.preserveChanges = true →
        morphPrepass opts fromN = fromN) ∧
    (∀ (opts : Options) (fromN : DNode), opts.preserveChanges = false →
        isParentNode fromN = true → morphPrepass opts fromN = flagDirtyInputs fromN) ∧
    (∀ (fromN n : DNode), n ∈ subtreeNodesList fromN.children →
        (inputDirtyPred n || optionDirtyPred n || textareaDirtyPred n) = true →
        ∃ n2 ∈ subtreeNodesList (flagDirtyInputs fromN).children,
          n2.nref = n.nref ∧ hasAttr n2 "morphlex-dirty" = true) := by
  have hpeI : ∀ m, inputDirtyPred m = true → m.localName ≠ "" := by
    intro m hm
    rw [inputDirtyPred_localName m hm]
    decide
  have hpeO : ∀ m, optionDirtyPred m = true → m.localName ≠ "" := by
    intro m hm
    rw [optionDirtyPred_localName m hm]
    decide
  have hpeT : ∀ m, textareaDirtyPred m = true → m.localName ≠ "" := by
    intro m hm
    rw [textareaDirtyPred_localName m hm]
    decide
  refine ⟨?_, ?_, ?_⟩
  · intro opts fromN h
    unfold morphPrepass
    rw [h]
    simp
  · intro opts fromN h hp
    unfold morphPrepass
    rw [h, hp]
    simp
  · intro fromN n hn hpred
    have hch : (flagDirtyInputs fromN).children =
        flagAllList textareaDirtyPred (flagAllList optionDirtyPred
          (flagAllList inputDirtyPred fromN.children)) := by
      unfold flagDirtyInputs flagWhere
      cases fromN <;> rfl
    rw [hch]
    by_cases hi : inputDirtyPred n = true
    · obtain ⟨n1, hm1, hr1, hx1⟩ := flagAllList_flags inputDirtyPred hpeI fromN.children n hn hi
      obtain ⟨n2, hm2, hr2, hx2⟩ := flagAllList_keeps optionDirtyPred _ n1 hm1 hx1
      obtain ⟨n3, hm3, hr3, hx3⟩ := flagAllList_keeps textareaDirtyPred _ n2 hm2 hx2
      exact ⟨n3, hm3, hr3.trans (hr2.trans hr1), hx3⟩
    · have hif : inputDirtyPred n = false := by
        cases hb : inputDirtyPred n
        · rfl
        · exact absurd hb hi
      obtain ⟨n1, hm1, hr1, ha1, hl1, htc1, hln1⟩ :=
        flagAllList_corr inputDirtyPred fromN.children n hn hif
      by_cases ho : optionDirtyPred n = true
      · have ho1 : optionDirtyPred n1 = true := by
          rw [optionDirtyPred_congr n1 n hln1 ha1 hl1 htc1]
          exact ho
        obtain ⟨n2, hm2, hr2, hx2⟩ := flagAllList_flags optionDirtyPred hpeO _ n1 hm1 ho1
        obtain ⟨n3, hm3, hr3, hx3⟩ := flagAllList_keeps textareaDirtyPred _ n2 hm2 hx2
        exact ⟨n3, hm3, hr3.trans (hr2.trans hr1), hx3⟩
      · have hof : optionDirtyPred n = false := by
          cases hb : optionDirtyPred n
          · rfl
          · exact absurd hb ho
        have ht : textareaDirtyPred n = true := by
          simpa [hif, hof] using hpred
        have ho1 : optionDirtyPred n1 = false := by
          rw [optionDirtyPred_congr n1 n hln1 ha1 hl1 htc1]
          exact hof
        obtain ⟨n2, hm2, hr2, ha2, hl2, htc2, hln2⟩ :=
          flagAllList_corr optionDirtyPred _ n1 hm1 ho1
        have ht2 : textareaDirtyPred n2 = true := by
          rw [textareaDirtyPred_congr n2 n1 hln2 hl2 htc2,
            textareaDirtyPred_congr n1 n hln1 hl1 htc1]
          exact ht
        obtain ⟨n3, hm3, hr3, hx3⟩ := flagAllList_flags textareaDirtyPred hpeT _ n2 hm2 ht2
        exact ⟨n3, hm3, hr3.trans (hr2.trans hr1), hx3⟩

/-- Witness for C6 (amended) at the concrete scenario: the named dirty input
of `c6Tree` is flagged by the pre-pass. -/
theorem flagDirtyInputs_flags_dirty_descendants_witness :
    ∃ n2 ∈ subtreeNodesList (flagDirtyInputs c6Tree).children,
      n2.nref = c6Input.nref ∧ hasAttr n2 "morphlex-dirty" = true :=
  flagDirtyInputs_flags_dirty_descendants.2.2 c6Tree c6Input
    (by simp [c6Tree, c6Input, DNode.children, subtreeNodesList, subtreeNodes])
    (by decide)

/-! ## Helper lemmas: the matching passes -/

theorem getD_set_ne {α : Type} (d : α) :
    ∀ (l : List α) (i j : Nat) (v : α), i ≠ j → (l.set i v).getD j d = l.getD j d
  | [], _, _, _, _ => rfl
  | _ :: _, 0, 0, _, hne => absurd rfl hne
  | _ :: _, 0, _ + 1, _, _ => rfl
  | _ :: _, _ + 1, 0, _, _ => rfl
  | x :: xs, i + 1, j + 1, v, hne => by
      show (xs.set i v).getD j d = xs.getD j d
      exact getD_set_ne d xs i j v (fun h => hne (by rw [h]))

theorem getD_set_self {α : Type} (d : α) :
    ∀ (l : List α) (j : Nat) (v : α), j < l.length → (l.set j v).getD j d = v
  | [], j, _, h => absurd h (Nat.not_lt_zero j)
  | _ :: _, 0, _, _ => rfl
  | _ :: xs, j + 1, v, h => getD_set_self d xs j v (Nat.lt_of_succ_lt_succ h)

theorem runPass_preserves_out (pred : Nat → Nat → Bool) :
    ∀ (js pool : List Nat) (m : List (Option Nat)) (j : Nat), j ∉ js →
      (runPass pred js pool m).2.2.getD j none = m.getD j none
  | [], _, _, _, _ => rfl
  | j2 :: js, pool, m, j, hj => by
      have hne : j ≠ j2 := fun h => hj (h ▸ List.mem_cons_self j2 js)
      have hnotin : j ∉ js := fun h => hj (List.mem_cons_of_mem j2 h)
      unfold runPass
      cases hfind : pool.find? (fun i => pred j2 i) with
      | some i =>
          dsimp only
          rw [runPass_preserves_out pred js (pool.erase i) (m.set j2 (some i)) j hnotin]
          exact getD_set_ne none m j2 j (some i) (fun h => hne h.symm)
      | none =>
          dsimp only
          exact runPass_preserves_out pred js pool m j hnotin

theorem runPass_match_pred (pred : Nat → Nat → Bool) :
    ∀ (js pool : List Nat) (m : List (Option Nat)) (j i : Nat),
      (runPass pred js pool m).2.2.getD j none = some i →
      m.getD j none = some i ∨ pred j i = true
  | [], _, _, _, _, h => Or.inl h
  | j2 :: js, pool, m, j, i, h => by
      unfold runPass at h
      cases hfind : pool.find? (fun i => pred j2 i) with
      | some i2 =>
          rw [hfind] at h
          dsimp only at h
          rcases runPass_match_pred pred js (pool.erase i2) (m.set j2 (some i2)) j i h with
            h2 | h2
          · by_cases hjj : j2 = j
            · subst hjj
              by_cases hlen : j2 < m.length
              · rw [getD_set_self none m j2 (some i2) hlen] at h2
                have hii : i2 = i := Option.some_inj.mp h2
                subst hii
                exact Or.inr (List.find?_some hfind)
              · rw [List.set_eq_of_length_le (Nat.le_of_not_lt hlen)] at h2
                exact Or.inl h2
            · rw [getD_set_ne none m j2 j (some i2) hjj] at h2
              exact Or.inl h2
          · exact Or.inr h2
      | none =>
          rw [hfind] at h
          dsimp only at h
          exact runPass_match_pred pred js pool m j i h

/-- C8 (amended): the combined exact-id / ID-set pass is a single loop with
first-candidate-wins semantics, and matches once recorded are never
overwritten.  (1) `runPass` never changes the match entry of a reference
index it does not process; (2) for the first reference index processed, the
recorded match is exactly the first candidate in pool order satisfying the
pass predicate (`none` leaves the entry unchanged). -/
theorem runPass_first_match_and_stability :
    (∀ (pred : Nat → Nat → Bool) (js pool : List Nat) (m : List (Option Nat)) (j : Nat),
        j ∉ js →
        (runPass pred js pool m).2.2.getD j none = m.getD j none) ∧
    (∀ (pred : Nat → Nat → Bool) (j : Nat) (js pool : List Nat) (m : List (Option Nat)),
        j ∉ js → j < m.length →
        (runPass pred (j :: js) pool m).2.2.getD j none =
          (match pool.find? (fun i => pred j i) with
            | some i => some i
            | none => m.getD j none)) := by
  refine ⟨fun pred => runPass_preserves_out pred, ?_⟩
  intro pred j js pool m hj hlen
  unfold runPass
  cases hfind : pool.find? (fun i => pred j i) with
  | some i =>
      dsimp only
      rw [runPass_preserves_out pred js (pool.erase i) (m.set j (some i)) j hj]
      exact getD_set_self none m j (some i) hlen
  | none =>
      dsimp only
      exact runPass_preserves_out pred js pool m j hj

/-- Witness for C8 (amended) at concrete data: with one reference index and a
two-candidate pool, the recorded match is the first satisfying candidate, and
an unprocessed index keeps its entry. -/
theorem runPass_first_match_and_stability_witness :
    (runPass (fun _ i => i == 4) [0] [3, 4] [none, none, none, none, none, none, none, some 9]
        ).2.2.getD 7 none = some 9 ∧
    (runPass (fun _ i => i == 4) [0] [3, 4] [none]).2.2.getD 0 none =
      (match ([3, 4].find? (fun i => (fun _ i2 => i2 == 4) 0 i)) with
        | some i => some i
        | none => ([none] : List (Option Nat)).getD 0 none) := by
  constructor
  · exact runPass_first_match_and_stability.1 (fun _ i => i == 4) [0] [3, 4] _ 7 (by decide)
  · exact runPass_first_match_and_stability.2 (fun _ i => i == 4) 0 [] [3, 4] [none]
      (by decide) (by decide)

theorem attrs_withChildren (n : DNode) (l : List DNode) :
    (n.withChildren l).attrs = n.attrs := by
  cases n <;> rfl

theorem attrs_flagWhere (p : DNode → Bool) (t : DNode) :
    (flagWhere p t).attrs = t.attrs := by
  unfold flagWhere
  exact attrs_withChildren t _

theorem attrs_flagDirtyInputs (t : DNode) : (flagDirtyInputs t).attrs = t.attrs := by
  unfold flagDirtyInputs
  rw [attrs_flagWhere, attrs_flagWhere, attrs_flagWhere]

theorem idSetOverlap_empty (e c : DNode) : idSetOverlap ([] : IdMap) e c = false := rfl

/-- C7 (amended): `morphInner` performs no ID indexing.  (1) With the empty
ID index the ID-set-overlap predicate never holds, and (2) any match the
combined id pass makes over the empty index — as `morphInner`'s child visit
runs it — is an exact-id match; (3) the outer-level pair morph is skipped:
`morphInner` leaves the current root's own attributes untouched. -/
theorem morphInner_empty_index :
    (∀ (e c : DNode), idSetOverlap ([] : IdMap) e c = false) ∧
    (∀ (toC fromC : List DNode) (js pool : List Nat) (m : List (Option Nat)) (j i : Nat),
        (runPass (fun j2 i2 =>
            exactIdPred (toC.getD j2 dflt) (fromC.getD i2 dflt) ||
              idSetOverlap ([] : IdMap) (toC.getD j2 dflt) (fromC.getD i2 dflt))
          js pool m).2.2.getD j none = some i →
        m.getD j none = none →
        exactIdPred (toC.getD j dflt) (fromC.getD i dflt) = true) ∧
    (∀ (fuel : Nat) (opts : Options) (fromN toN : DNode) (r : DNode × List Ev),
        morphInnerFn fuel opts fromN toN = some r → r.1.attrs = fromN.attrs) := by
  refine ⟨idSetOverlap_empty, ?_, ?_⟩
  · intro toC fromC js pool m j i hres hnone
    rcases runPass_match_pred _ js pool m j i hres with h | h
    · rw [hnone] at h
      cases h
    · rw [idSetOverlap_empty, Bool.or_false] at h
      exact h
  · intro fuel opts fromN toN r hr
    unfold morphInnerFn at hr
    split at hr
    · have hr2 := Option.some_inj.mp hr
      rw [← hr2]
      dsimp only
      rw [attrs_withChildren]
      split
      · exact attrs_flagDirtyInputs fromN
      · rfl
    · cases hr

/-- Witness for C7 (amended): a concrete empty-index pass match is an
exact-id match, and a concrete inner morph leaves the root attributes
unchanged. -/
theorem morphInner_empty_index_witness :
    exactIdPred (([c8R1] : List DNode).getD 0 dflt) (([c8C0] : List DNode).getD 0 dflt)
        = true ∧
    (morphInnerFn 10 noCallbacks c7From c7To).map (fun p => p.1.attrs)
        = some c7From.attrs := by
  constructor
  · exact morphInner_empty_index.2.1 [c8R1] [c8C0] [0] [0] [none] 0 0 (by decide) rfl
  · have hs : (morphInnerFn 10 noCallbacks c7From c7To).isSome = true := rfl
    cases hsome : morphInnerFn 10 noCallbacks c7From c7To with
    | none => rw [hsome] at hs; cases hs
    | some r =>
        rw [Option.map_some']
        rw [morphInner_empty_index.2.2 10 noCallbacks c7From c7To r hsome]

/-! ## Helper lemmas: the reorder walk -/

theorem mem_insertBeforeRefAt (x n : DNode) :
    ∀ (cs : List DNode) (r : Nat), x ∈ cs → x ∈ insertBeforeRef.insertBeforeRefAt cs n r := by
  intro cs
  induction cs with
  | nil => intro r hx; exact absurd hx (List.not_mem_nil x)
  | cons c rest ih =>
      intro r hx
      unfold insertBeforeRef.insertBeforeRefAt
      split
      · exact List.mem_cons_of_mem n hx
      · rcases List.mem_cons.mp hx with h | h
        · rw [h]; exact List.mem_cons_self c _
        · exact List.mem_cons_of_mem c (ih r h)

theorem self_mem_insertBeforeRefAt (n : DNode) :
    ∀ (cs : List DNode) (r : Nat), n ∈ insertBeforeRef.insertBeforeRefAt cs n r := by
  intro cs
  induction cs with
  | nil => intro r; unfold insertBeforeRef.insertBeforeRefAt; exact List.mem_cons_self n []
  | cons c rest ih =>
      intro r
      unfold insertBeforeRef.insertBeforeRefAt
      split
      · exact List.mem_cons_self n _
      · exact List.mem_cons_of_mem c (ih r)

theorem mem_insertBeforeRef (x n : DNode) (cs : List DNode) (ip : Option Nat) (hx : x ∈ cs) :
    x ∈ insertBeforeRef cs n ip := by
  cases ip with
  | none => exact List.mem_append_left _ hx
  | some r => exact mem_insertBeforeRefAt x n cs r hx

theorem self_mem_insertBeforeRef (n : DNode) (cs : List DNode) (ip : Option Nat) :
    n ∈ insertBeforeRef cs n ip := by
  cases ip with
  | none => exact List.mem_append_right _ (List.mem_cons_self n [])
  | some r => exact self_mem_insertBeforeRefAt n cs r

theorem mem_eraseRef (x : DNode) :
    ∀ (cs : List DNode) (r : Nat), x ∈ cs → x.nref ≠ r → x ∈ eraseRef cs r := by
  intro cs
  induction cs with
  | nil => intro r hx _; exact absurd hx (List.not_mem_nil x)
  | cons c rest ih =>
      intro r hx hne
      unfold eraseRef
      by_cases hc : (c.nref == r) = true
      · rw [if_pos hc]
        rcases List.mem_cons.mp hx with h | h
        · rw [h] at hne
          exact absurd (beq_iff_eq.mp hc) hne
        · exact h
      · rw [if_neg hc]
        rcases List.mem_cons.mp hx with h | h
        · rw [h]; exact List.mem_cons_self c _
        · exact List.mem_cons_of_mem c (ih r h hne)

theorem mem_moveBefore (x node : DNode) (cs : List DNode) (ip : Option Nat)
    (hx : x ∈ cs) (hne : x.nref ≠ node.nref) :
    x ∈ (moveBefore cs node ip).1 := by
  unfold moveBefore
  split
  · exact hx
  · split
    · exact hx
    · exact mem_insertBeforeRef x node _ ip (mem_eraseRef x cs node.nref hx hne)

theorem mem_applyMorphAt (x : DNode) :
    ∀ (cs : List DNode) (r : Nat) (res : MorphRes),
      x ∈ cs → x.nref ≠ r → x ∈ (applyMorphAt cs r res).1 := by
  intro cs
  induction cs with
  | nil => intro r res hx _; exact absurd hx (List.not_mem_nil x)
  | cons c rest ih =>
      intro r res hx hne
      unfold applyMorphAt
      by_cases hc : (c.nref == r) = true
      · rw [if_pos hc]
        rcases List.mem_cons.mp hx with h | h
        · rw [h] at hne
          exact absurd (beq_iff_eq.mp hc) hne
        · cases res <;> exact List.mem_cons_of_mem _ h
      · rw [if_neg hc]
        rcases List.mem_cons.mp hx with h | h
        · rw [h]; exact List.mem_cons_self c _
        · exact List.mem_cons_of_mem c (ih r res h hne)

theorem mem_insertStep (x : DNode) (opts : Options) (parentRef : Nat) (node : DNode)
    (st : WalkSt) (hx : x ∈ st.children) :
    x ∈ (insertStep opts parentRef node st).children := by
  unfold insertStep
  split
  · exact mem_insertBeforeRef x node st.children st.ip hx
  · exact hx

theorem mem_matchedStep (x : DNode) (morphChild : DNode → DNode → MorphRes × List Ev)
    (fromChildNodes : List DNode) (shouldNotMove : List Bool)
    (node : DNode) (matchInd : Nat) (st : WalkSt)
    (hx : x ∈ st.children)
    (hne : (fromChildNodes.getD matchInd dflt).nref ≠ x.nref) :
    x ∈ (matchedStep morphChild fromChildNodes shouldNotMove node matchInd st).children := by
  unfold matchedStep
  dsimp only
  split
  · exact mem_applyMorphAt x _ _ _ hx (fun h => hne h.symm)
  · exact mem_applyMorphAt x _ _ _
      (mem_moveBefore x _ st.children st.ip hx (fun h => hne h.symm)) (fun h => hne h.symm)

theorem reorderWalk_preserves_mem (opts : Options) (parentRef : Nat)
    (morphChild : DNode → DNode → MorphRes × List Ev)
    (fromChildNodes : List DNode) (shouldNotMove : List Bool) (x : DNode) :
    ∀ (l : List (DNode × Option Nat)) (st : WalkSt),
      x ∈ st.children →
      (∀ mi ∈ l.filterMap (fun p => p.2), (fromChildNodes.getD mi dflt).nref ≠ x.nref) →
      x ∈ (reorderWalk opts parentRef morphChild fromChildNodes shouldNotMove l st).children
  | [], _, hx, _ => hx
  | (node, mi) :: rest, st, hx, hl => by
      cases mi with
      | some matchInd =>
          have hne : (fromChildNodes.getD matchInd dflt).nref ≠ x.nref :=
            hl matchInd (by simp)
          exact reorderWalk_preserves_mem opts parentRef morphChild fromChildNodes
            shouldNotMove x rest _
            (mem_matchedStep x morphChild fromChildNodes shouldNotMove node matchInd st hx hne)
            (fun mj hmj => hl mj (by simp [hmj]))
      | none =>
          exact reorderWalk_preserves_mem opts parentRef morphChild fromChildNodes
            shouldNotMove x rest _
            (mem_insertStep x opts parentRef node st hx)
            (fun mj hmj => hl mj (by simpa using hmj))

theorem matchedStep_log_extend (morphChild : DNode → DNode → MorphRes × List Ev)
    (fromChildNodes : List DNode) (shouldNotMove : List Bool)
    (node : DNode) (matchInd : Nat) (st : WalkSt) :
    ∃ u, (matchedStep morphChild fromChildNodes shouldNotMove node matchInd st).log
      = st.log ++ u := by
  unfold matchedStep
  dsimp only
  exact ⟨_, List.append_assoc _ _ _⟩

theorem insertStep_log_extend (opts : Options) (parentRef : Nat) (node : DNode) (st : WalkSt) :
    ∃ u, (insertStep opts parentRef node st).log = st.log ++ u := by
  unfold insertStep
  split
  · exact ⟨_, rfl⟩
  · exact ⟨[], by simp⟩

theorem reorderWalk_log_extend (opts : Options) (parentRef : Nat)
    (morphChild : DNode → DNode → MorphRes × List Ev)
    (fromChildNodes : List DNode) (shouldNotMove : List Bool) :
    ∀ (l : List (DNode × Option Nat)) (st : WalkSt),
      ∃ t, (reorderWalk opts parentRef morphChild fromChildNodes shouldNotMove l st).log
        = st.log ++ t
  | [], st => ⟨[], by rw [reorderWalk]; simp⟩
  | (node, mi) :: rest, st => by
      cases mi with
      | some matchInd =>
          obtain ⟨t, ht⟩ := reorderWalk_log_extend opts parentRef morphChild fromChildNodes
            shouldNotMove rest
            (matchedStep morphChild fromChildNodes shouldNotMove node matchInd st)
          obtain ⟨u, hu⟩ := matchedStep_log_extend morphChild fromChildNodes shouldNotMove
            node matchInd st
          refine ⟨u ++ t, ?_⟩
          rw [reorderWalk, ht, hu, List.append_assoc]
      | none =>
          obtain ⟨t, ht⟩ := reorderWalk_log_extend opts parentRef morphChild fromChildNodes
            shouldNotMove rest (insertStep opts parentRef node st)
          obtain ⟨u, hu⟩ := insertStep_log_extend opts parentRef node st
          refine ⟨u ++ t, ?_⟩
          rw [reorderWalk, ht, hu, List.append_assoc]

/-- C5 (amended): when the reorder walk reaches an unmatched reference child
`node` and `beforeNodeAdded` approves, the node inserted is the reference node
itself: after the walk completes, `node` (that very value, host identity
included) is among the current parent's children, and the host insertion
event in the log names `node`'s identity.  The hypotheses say the remaining
matched current children are distinct objects from `node`, which host object
identity guarantees. -/
theorem reorderWalk_inserts_reference_node (opts : Options) (parentRef : Nat)
    (morphChild : DNode → DNode → MorphRes × List Ev)
    (fromChildNodes : List DNode) (shouldNotMove : List Bool)
    (node : DNode) (rest : List (DNode × Option Nat)) (st : WalkSt)
    (happrove : ∀ ip, opts.beforeNodeAdded parentRef node ip = true)
    (hdisj : ∀ mi ∈ rest.filterMap (fun p => p.2),
      (fromChildNodes.getD mi dflt).nref ≠ node.nref) :
    node ∈ (reorderWalk opts parentRef morphChild fromChildNodes shouldNotMove
        ((node, none) :: rest) st).children ∧
    Ev.insert node.nref ∈ (reorderWalk opts parentRef morphChild fromChildNodes shouldNotMove
        ((node, none) :: rest) st).log := by
  rw [reorderWalk]
  have hstep : insertStep opts parentRef node st =
      { children := insertBeforeRef st.children node st.ip,
        ip := nextSiblingRef (insertBeforeRef st.children node st.ip) node.nref,
        log := st.log ++ [Ev.insert node.nref, Ev.afterNodeAdded node.nref] } := by
    unfold insertStep
    rw [if_pos (happrove st.ip)]
  constructor
  · apply reorderWalk_preserves_mem opts parentRef morphChild fromChildNodes shouldNotMove
      node rest _ _ hdisj
    rw [hstep]
    exact self_mem_insertBeforeRef node st.children st.ip
  · obtain ⟨t, ht⟩ := reorderWalk_log_extend opts parentRef morphChild fromChildNodes
      shouldNotMove rest (insertStep opts parentRef node st)
    rw [ht, hstep]
    simp

/-- Witness for C5 (amended) at a concrete walk: inserting the unmatched
`<span/>` (ref 12) into an empty parent yields children containing the span
itself and an insertion event naming ref 12. -/
theorem reorderWalk_inserts_reference_node_witness :
    DNode.elem 12 "span" [] {} [] ∈
      (reorderWalk noCallbacks 0 (fun a _ => (MorphRes.inPlace a, []))
        [] [] [(DNode.elem 12 "span" [] {} [], none)]
        { children := [], ip := none, log := [] }).children ∧
    Ev.insert 12 ∈
      (reorderWalk noCallbacks 0 (fun a _ => (MorphRes.inPlace a, []))
        [] [] [(DNode.elem 12 "span" [] {} [], none)]
        { children := [], ip := none, log := [] }).log :=
  reorderWalk_inserts_reference_node noCallbacks 0 (fun a _ => (MorphRes.inPlace a, []))
    [] [] (DNode.elem 12 "span" [] {} []) [] { children := [], ip := none, log := [] }
    (fun _ => rfl) (by simp)

/-- C4: every veto hook gates exactly the mutation it guards, per invocation.
(1) `beforeNodeVisited` refusing a particular pair leaves the current node
unchanged with no events (no mutation, no `afterNodeVisited`);
(2) `beforeChildrenVisited` refusing a particular element leaves its children
untouched with no events (no `afterChildrenVisited`);
(3) `#replaceNode` with `beforeNodeRemoved` refusing commits nothing — no
insertion, no removal, no `after` callbacks; (4) likewise when
`beforeNodeAdded` refuses: a replacement is committed only when both approve;
(5) `#removeNode` with `beforeNodeRemoved` refusing removes nothing and fires
no `afterNodeRemoved`; (6) the reorder walk's insertion with `beforeNodeAdded`
refusing leaves the walk state unchanged (no insertion, no `afterNodeAdded`);
(7) with `beforeAttributeUpdated` refusing every update to one particular
attribute `n` — other attributes and all other hooks arbitrary — the whole of
`#visitAttributes` leaves attribute `n` of the current element unchanged and
invokes no `afterAttributeUpdated` for `n` (the ungated `morphlex-dirty`
strip excepted). -/
theorem hooks_gate_all_mutations :
    (∀ (fuel : Nat) (opts : Options) (im : IdMap) (parentRef : Nat) (a b : DNode),
        opts.beforeNodeVisited a b = false →
        morphNodeFuel fuel opts im parentRef a b = (MorphRes.inPlace a, [])) ∧
    (∀ (opts : Options) (im : IdMap) (mc : DNode → DNode → MorphRes × List Ev) (a b : DNode),
        opts.beforeChildrenVisited a = false →
        visitChildNodesGo opts im mc a b = (a.children, [])) ∧
    (∀ (opts : Options) (parentRef : Nat) (node newNode : DNode),
        opts.beforeNodeRemoved node = false →
        replaceNodeRes opts parentRef node newNode = (MorphRes.inPlace node, [])) ∧
    (∀ (opts : Options) (parentRef : Nat) (node newNode : DNode),
        opts.beforeNodeAdded parentRef newNode (some node.nref) = false →
        replaceNodeRes opts parentRef node newNode = (MorphRes.inPlace node, [])) ∧
    (∀ (opts : Options) (st : List DNode × List Ev) (node : DNode),
        opts.beforeNodeRemoved node = false →
        removeNodeOp opts st node = st) ∧
    (∀ (opts : Options) (parentRef : Nat) (node : DNode) (st : WalkSt),
        opts.beforeNodeAdded parentRef node st.ip = false →
        insertStep opts parentRef node st = st) ∧
    (∀ (opts : Options) (a b : DNode) (n : String),
        (∀ e v, opts.beforeAttributeUpdated e n v = false) →
        n ≠ "morphlex-dirty" →
        getAttr (visitAttributes opts a b).1 n = getAttr a n ∧
        ∀ ev ∈ (visitAttributes opts a b).2, isAfterAttrEvAt n ev = false) := by
  refine ⟨?_, ?_, ?_, ?_, ?_, ?_, ?_⟩
  · intro fuel opts im parentRef a b h
    exact morphNodeFuel_beforeNodeVisited_gate fuel opts im parentRef a b h
  · intro opts im mc a b h
    exact visitChildNodesGo_beforeChildrenVisited_gate opts im mc a b h
  · intro opts parentRef node newNode h
    simp [replaceNodeRes, h]
  · intro opts parentRef node newNode h
    simp [replaceNodeRes, h]
  · intro opts st node h
    simp [removeNodeOp, h]
  · intro opts parentRef node st h
    simp [insertStep, h]
  · intro opts a b n h hdirty
    exact visitAttributes_gatedName opts a b n h hdirty

/-- Witness for C4: concrete refusing hooks leave a concrete node visit,
children visit, replacement (vetoed from either side), removal, insertion and
single-attribute update uncommitted; the vetoed `class` attribute survives a
full attribute morph under options refusing `class` alone. -/
theorem hooks_gate_all_mutations_witness :
    morphNodeFuel 3 refuseAll [] 0 (DNode.text 1 "a") (DNode.text 2 "b")
        = (MorphRes.inPlace (DNode.text 1 "a"), []) ∧
    visitChildNodesGo refuseAll [] (fun a _ => (MorphRes.inPlace a, []))
        (DNode.elem 1 "div" [] {} [DNode.text 2 "x"]) (DNode.elem 3 "div" [] {} [])
        = ([DNode.text 2 "x"], []) ∧
    replaceNodeRes refuseAll 0 (DNode.text 1 "a") (DNode.text 2 "b")
        = (MorphRes.inPlace (DNode.text 1 "a"), []) ∧
    replaceNodeRes refuseAddOnly 0 (DNode.text 1 "a") (DNode.text 2 "b")
        = (MorphRes.inPlace (DNode.text 1 "a"), []) ∧
    removeNodeOp refuseAll ([DNode.text 1 "a"], []) (DNode.text 1 "a")
        = ([DNode.text 1 "a"], []) ∧
    insertStep refuseAll 0 (DNode.text 2 "b") {children := [], ip := none, log := []}
        = {children := [], ip := none, log := []} ∧
    getAttr (visitAttributes refuseClassAttr c2From c2To).1 "class" = getAttr c2From "class" ∧
    ∀ ev ∈ (visitAttributes refuseClassAttr c2From c2To).2,
      isAfterAttrEvAt "class" ev = false := by
  refine ⟨?_, ?_, ?_, ?_, ?_, ?_, ?_, ?_⟩
  · exact hooks_gate_all_mutations.1 3 refuseAll [] 0 _ _ rfl
  · exact hooks_gate_all_mutations.2.1 refuseAll [] _ _ _ rfl
  · exact hooks_gate_all_mutations.2.2.1 refuseAll 0 _ _ rfl
  · exact hooks_gate_all_mutations.2.2.2.1 refuseAddOnly 0 _ _ rfl
  · exact hooks_gate_all_mutations.2.2.2.2.1 refuseAll _ _ rfl
  · exact hooks_gate_all_mutations.2.2.2.2.2.1 refuseAll 0 _ _ rfl
  · exact (hooks_gate_all_mutations.2.2.2.2.2.2 refuseClassAttr c2From c2To "class"
      (fun _ _ => rfl) (by decide)).1
  · exact (hooks_gate_all_mutations.2.2.2.2.2.2 refuseClassAttr c2From c2To "class"
      (fun _ _ => rfl) (by decide)).2

/-- C8 counterexample: in the C8 scenario the later reference child `c8R1`
can be matched to `c8C0` by exact id (`div#b` on both sides), yet the earlier
reference child `c8R0` — which does not exact-id match `c8C0` — consumes
`c8C0` first through ID-set overlap inside the single combined loop, leaving
`c8R1` unmatched.  Exact-id matches are therefore not completed before
ID-set-overlap matches, refuting the strict seven-pass ordering. -/
theorem matchChildren_id_pass_order_counterexample :
    (matchChildren c8Im c8FromP.children c8ToP.children).1 = [some 0, none] ∧
    exactIdPred c8R1 c8C0 = true ∧
    exactIdPred c8R0 c8C0 = false ∧
    idSetOverlap c8Im c8R0 c8C0 = true := by
  refine ⟨by decide, by decide, by decide, by decide⟩

end Morphlex

